import Mathlib

/-!
The NVM dump / unlock utility `unlock.c` of ixl_unlock.

A shallow embedding of `show_info`, `update_nvm` and `main` of `unlock.c`.

* The kernel and the device are an explicit `World`: the results of `calloc`,
  of `socket` and of every `ioctl`.  An `ioctl` answer may depend on the whole
  history of earlier calls, so any deterministic device can be expressed.
* The process state `Proc` records what the program does to the outside:
  every `ioctl` call in order (`calls`), the lines written to standard output
  (`out`) and the seconds slept.
* `err`/`errx`/`exit` end the run: `Res.exit site code p`, where `site` names
  the source line of the call.
* Machine integers are `Nat` with explicit reductions (`u16`, `u32`); the data
  buffer `nvm->data`, which the source only accesses through `uint16_t *`, is
  a list of 16-bit words.
* `free` and `close` have no effect that the statements below observe and are
  left out; the descriptor passed to `ioctl` is not recorded in a call.
-/

namespace IxlUnlock

/-! ## Constants of `unlock.c` -/

/-- The driver-specific command, `I40E_NVM_ACCESS` (line 51). -/
def I40E_NVM_ACCESS : Nat :=
  ((((((((Char.toNat 'E' <<< 4) + Char.toNat '1') <<< 4) + Char.toNat 'K') <<< 4)
    + Char.toNat 'G') <<< 4) ||| 5)

def I40E_NVM_READ : Nat := 0xB
def I40E_NVM_WRITE : Nat := 0xC
def I40E_NVM_TRANS_SHIFT : Nat := 8
def I40E_NVM_SNT : Nat := 0x1
def I40E_NVM_LCB : Nat := 0x2
def I40E_NVM_SA : Nat := I40E_NVM_SNT ||| I40E_NVM_LCB
def I40E_NVM_CSUM : Nat := 0x8
def I40E_SR_EMP_SR_SETTINGS_PTR : Nat := 0x48
def PHY_CAP_SIZE : Nat := 0x0d
def PHY_CAP_OFFSET : Nat := 0x19

/-- The value of `sizeof(uint16_t)`. -/
def sizeof_uint16_t : Nat := 2

/-- The value of `sizeof(struct i40e_nvm_access)`: four `uint32_t` fields (16 bytes) and
`uint8_t data[1]`, rounded up to the 4-byte alignment of the structure. -/
def sizeof_i40e_nvm_access : Nat := ((4 * 4 + 1 + 3) / 4) * 4

/-- The size of `ifd_name` in `struct ifdrv` (`IFNAMSIZ` of `net/if.h`). -/
def IFNAMSIZ : Nat := 16

/-- Store into a `uint16_t`. -/
def u16 (n : Nat) : Nat := n % 2 ^ 16

/-- Store into a `uint32_t`. -/
def u32 (n : Nat) : Nat := n % 2 ^ 32

/-- The operator `~` on a non-negative `int`, as a 32-bit two's complement bit pattern. -/
def not32 (n : Nat) : Nat := 2 ^ 32 - 1 - n % 2 ^ 32

/-! ## Data model -/

/-- The request header and its inline buffer, `struct i40e_nvm_access` (lines 76-82).
`data` is the buffer behind `nvm->data`, in 16-bit words. -/
structure i40e_nvm_access where
  command : Nat
  config : Nat
  offset : Nat
  data_size : Nat
  data : List Nat
deriving DecidableEq, Repr

/-- The fields of `struct ifdrv` that the program fills in. -/
structure ifdrv where
  ifd_name : List Char
  ifd_cmd : Nat
  ifd_len : Nat
  ifd_data : i40e_nvm_access
deriving DecidableEq, Repr

/-- The two ioctl verbs used by the program. -/
inductive Ioc where
  | SIOCGDRVSPEC
  | SIOCSDRVSPEC
deriving DecidableEq, Repr

/-- One `ioctl` call: the verb, the request as handed to the kernel, and the answer.
`resp = none` is a return value of `-1`; `resp = some d` is success, after which the
buffer `nvm->data` holds the words `d`. -/
structure Call where
  verb : Ioc
  req : ifdrv
  resp : Option (List Nat)
deriving DecidableEq, Repr

/-- Everything outside the program. `calloc k` tells whether the `k`-th allocation of
the run succeeds (`show_info` makes allocation 0, `update_nvm` allocation 1), `socket`
is the return value of `socket(2)`, and `ioctl hist verb req` is the answer to a
request made after the calls `hist`. -/
structure World where
  calloc : Nat → Bool
  socket : Int
  ioctl : List Call → Ioc → ifdrv → Option (List Nat)

/-- Annotation printed after a word of the PHY capability dump (lines 167-179). -/
inductive Note where
  | section_length
  | misc0
  | lesm_timer
  | plain
deriving DecidableEq, Repr

/-- The lines (or line fragments) the program prints on standard output,
with the arguments of the `printf` call. -/
inductive Out where
  | usage (name : List Char)
  | emp_sr (offset : Nat)
  | phy_cap_data_offset (offset : Nat)
  | phy_cap_header
  | phy_cap_word (offset i value : Nat) (note : Note)
  | misc (i value : Nat)
  | skipped
  | updated_to (value : Nat)
  | nvm_updated
deriving DecidableEq, Repr

/-- What the process has done so far. -/
structure Proc where
  calls : List Call
  out : List Out
  slept : Nat
deriving DecidableEq, Repr

/-- The process at the start of `main`. -/
def Proc.init : Proc := { calls := [], out := [], slept := 0 }

def Proc.print (p : Proc) (o : Out) : Proc := { p with out := p.out ++ [o] }

def Proc.sleep (p : Proc) (n : Nat) : Proc := { p with slept := p.slept + n }

def Proc.call (p : Proc) (verb : Ioc) (req : ifdrv) (resp : Option (List Nat)) : Proc :=
  { p with calls := p.calls ++ [{ verb := verb, req := req, resp := resp }] }

/-- The source lines that end the process. -/
inductive Site where
  | usage            -- line 93, exit(0)
  | show_calloc      -- line 108
  | show_socket      -- line 112
  | show_ioctl_emp   -- line 127
  | show_4k          -- line 135
  | show_ioctl_ptr   -- line 144
  | show_ioctl_cap   -- line 161
  | upd_show_info    -- line 196
  | upd_calloc       -- line 200
  | upd_ioctl_read   -- line 216
  | upd_ioctl_write  -- line 231
  | upd_ioctl_csum   -- line 246
  | main_ifname      -- line 281
deriving DecidableEq, Repr

/-- Result of running a function: the process ended at `site` with status `code`,
or the function returned `a`. -/
inductive Res (α : Type) where
  | exit (site : Site) (code : Nat) (p : Proc)
  | ret (a : α) (p : Proc)
deriving Repr

/-- The process state at the end of the run. -/
def Res.proc {α : Type} : Res α → Proc
  | .exit _ _ p => p
  | .ret _ p => p

/-- The ioctl calls made by the end of the run. -/
def Res.calls {α : Type} (r : Res α) : List Call := r.proc.calls

/-- The value of `*(uint16_t *)nvm->data`. -/
def word0 (data : List Nat) : Nat := u16 (data.headD 0)

/-- The buffer after `*(uint16_t *)nvm->data = value`. -/
def set_word0 (data : List Nat) (value : Nat) : List Nat := u16 value :: data.tail

/-! ## `show_info` (lines 98-184) -/

/-- The `struct ifdrv` set up in `show_info` (lines 114-119) around the buffer `nvm`. -/
def show_req (ifname : List Char) (nvm : i40e_nvm_access) : ifdrv :=
  { ifd_name := ifname.take (IFNAMSIZ - 1)
    ifd_cmd := I40E_NVM_ACCESS
    ifd_len := sizeof_i40e_nvm_access + PHY_CAP_SIZE * sizeof_uint16_t
    ifd_data := nvm }

/-- Lines 121-125: read the EMP SR settings pointer. `data` is the buffer content. -/
def emp_sr_nvm (data : List Nat) : i40e_nvm_access :=
  { command := I40E_NVM_READ
    config := u32 (I40E_NVM_SA <<< I40E_NVM_TRANS_SHIFT)
    offset := u32 (I40E_SR_EMP_SR_SETTINGS_PTR * sizeof_uint16_t)
    data_size := u32 sizeof_uint16_t
    data := data }

/-- Lines 139-142 and 156-158: a read at the word index `offset`, of `size` bytes. -/
def read_nvm (offset size : Nat) (data : List Nat) : i40e_nvm_access :=
  { command := I40E_NVM_READ
    config := u32 (I40E_NVM_SA <<< I40E_NVM_TRANS_SHIFT)
    offset := u32 (offset * sizeof_uint16_t)
    data_size := u32 size
    data := data }

/-- The annotation chosen by the `switch` of lines 167-179. -/
def note_of (i : Nat) : Note :=
  if i = 0x00 then .section_length
  else if i = 0x08 then .misc0
  else if i = 0x0a then .lesm_timer
  else .plain

/-- The dump loop, lines 165-180: one line per word of the buffer. -/
def dump_lines (offset : Nat) (data : List Nat) : List Out :=
  (List.range PHY_CAP_SIZE).map
    (fun i => Out.phy_cap_word offset i (u16 (data.getD i 0)) (note_of i))

/-- The function `show_info(ifname, offp)`; `offp = true` stands for a non-NULL `offp`.
Returns the C return value and the value stored in `*offp`, if any. -/
def show_info (w : World) (ifname : List Char) (offp : Bool) (p : Proc) :
    Res (Int × Option Nat) :=
  if w.calloc 0 = false then .exit .show_calloc 1 p
  else
    let s := w.socket
    if s = -1 then .exit .show_socket 2 p
    else
      -- Read EMP SR settings pointer
      let rq1 := show_req ifname (emp_sr_nvm (List.replicate PHY_CAP_SIZE 0))
      let r1 := w.ioctl p.calls .SIOCGDRVSPEC rq1
      let p := p.call .SIOCGDRVSPEC rq1 r1
      match r1 with
      | none => .exit .show_ioctl_emp 3 p
      | some d1 =>
        let offset := word0 d1
        let p := if offp = false then p.print (.emp_sr offset) else p
        -- Pointer is in 4k units.
        if offset &&& 0x8000 ≠ 0 then .exit .show_4k 1 p
        else
          -- Read PHY Capability LAN 0 Pointer
          let offset := u16 (offset + PHY_CAP_OFFSET)
          let rq2 := show_req ifname (read_nvm offset sizeof_uint16_t d1)
          let r2 := w.ioctl p.calls .SIOCGDRVSPEC rq2
          let p := p.call .SIOCGDRVSPEC rq2 r2
          match r2 with
          | none => .exit .show_ioctl_ptr 4 p
          | some d2 =>
            let offset := u16 (offset + word0 d2)
            if offp = true then .ret (s, some offset) p
            else
              let p := p.print (.phy_cap_data_offset offset)
              -- Read PHY Capability data structure 0
              let rq3 := show_req ifname
                (read_nvm offset (PHY_CAP_SIZE * sizeof_uint16_t) d2)
              let r3 := w.ioctl p.calls .SIOCGDRVSPEC rq3
              let p := p.call .SIOCGDRVSPEC rq3 r3
              match r3 with
              | none => .exit .show_ioctl_cap 5 p
              | some d3 =>
                let p := p.print .phy_cap_header
                let p := { p with out := p.out ++ dump_lines offset d3 }
                .ret (0, none) p

/-! ## `update_nvm` (lines 186-252) -/

/-- The `struct ifdrv` set up in `update_nvm` (lines 202-207) around the buffer `nvm`. -/
def upd_req (ifname : List Char) (nvm : i40e_nvm_access) : ifdrv :=
  { ifd_name := ifname.take (IFNAMSIZ - 1)
    ifd_cmd := I40E_NVM_ACCESS
    ifd_len := sizeof_i40e_nvm_access + sizeof_uint16_t
    ifd_data := nvm }

/-- Lines 211-214: the read of `PHY Capabilities Misc[i]`. -/
def misc_read_nvm (offset i : Nat) (data : List Nat) : i40e_nvm_access :=
  { command := I40E_NVM_READ
    config := u32 (I40E_NVM_SA <<< I40E_NVM_TRANS_SHIFT)
    offset := u32 ((offset + i * 0x0c + 0x08) * sizeof_uint16_t)
    data_size := u32 sizeof_uint16_t
    data := data }

/-- Lines 225-229: the write of the updated value; `data` already holds it. -/
def misc_write_nvm (offset i : Nat) (data : List Nat) : i40e_nvm_access :=
  { command := I40E_NVM_WRITE
    config := u32 (I40E_NVM_SA <<< I40E_NVM_TRANS_SHIFT)
    offset := u32 ((offset + i * 0x0c + 0x08) * sizeof_uint16_t)
    data_size := u32 sizeof_uint16_t
    data := data }

/-- Lines 239-244: the checksum update request. -/
def csum_nvm (data : List Nat) : i40e_nvm_access :=
  { command := I40E_NVM_WRITE
    config := u32 ((I40E_NVM_SA ||| I40E_NVM_CSUM) <<< I40E_NVM_TRANS_SHIFT)
    offset := 0
    data_size := u32 sizeof_uint16_t
    data := set_word0 data 0 }

/-- The locals of `update_nvm` that live across loop iterations: the counter `c` and
the buffer `nvm->data`. -/
structure Loop where
  c : Nat
  data : List Nat
deriving DecidableEq, Repr

/-- One iteration of the loop of lines 209-235, for lane `i`. -/
def update_nvm_lane (w : World) (ifname : List Char) (offset i : Nat) (l : Loop)
    (p : Proc) : Res Loop :=
  -- Read PHY Capabilities Misc[i]
  let rq := upd_req ifname (misc_read_nvm offset i l.data)
  let r := w.ioctl p.calls .SIOCGDRVSPEC rq
  let p := p.call .SIOCGDRVSPEC rq r
  match r with
  | none => .exit .upd_ioctl_read 2 p
  | some d =>
    let value := word0 d
    let p := p.print (.misc i value)
    if value &&& (1 <<< 11) = 0 then
      .ret { c := l.c, data := d } (p.print .skipped)
    else
      let value := u16 (value &&& not32 (1 <<< 11))
      -- Write updated value
      let wq := upd_req ifname (misc_write_nvm offset i (set_word0 d value))
      let r := w.ioctl p.calls .SIOCSDRVSPEC wq
      let p := p.call .SIOCSDRVSPEC wq r
      match r with
      | none => .exit .upd_ioctl_write 3 p
      | some d1 =>
        .ret { c := l.c + 1, data := d1 } ((p.print (.updated_to value)).sleep 1)

/-- The loop `for (i = 0, c = 0; i < 4; i++)`, over the lanes still to visit. -/
def update_nvm_loop (w : World) (ifname : List Char) (offset : Nat) :
    List Nat → Loop → Proc → Res Loop
  | [], l, p => .ret l p
  | i :: rest, l, p =>
    match update_nvm_lane w ifname offset i l p with
    | .exit site code p1 => .exit site code p1
    | .ret l1 p1 => update_nvm_loop w ifname offset rest l1 p1

/-- The function `update_nvm(ifname)`. The C function returns nothing; the final value
of the local `c` is returned here so that it can be referred to. The local `offset` is
only ever read after `show_info` has stored to it. -/
def update_nvm (w : World) (ifname : List Char) (p : Proc) : Res Nat :=
  match show_info w ifname true p with
  | .exit site code p => .exit site code p
  | .ret (s, offp) p =>
    if s ≤ 0 then .exit .upd_show_info 1 p
    else if w.calloc 1 = false then .exit .upd_calloc 1 p
    else
      let offset := offp.getD 0
      match update_nvm_loop w ifname offset (List.range 4)
          { c := 0, data := List.replicate 1 0 } p with
      | .exit site code p => .exit site code p
      | .ret l p =>
        if l.c ≠ 0 then
          -- Update checksum
          let rq := upd_req ifname (csum_nvm l.data)
          let r := w.ioctl p.calls .SIOCSDRVSPEC rq
          let p := p.call .SIOCSDRVSPEC rq r
          match r with
          | none => .exit .upd_ioctl_csum 4 p
          | some _ => .ret l.c (p.print .nvm_updated)
        else .ret l.c p

/-! ## `main` (lines 254-288) -/

/-- The `while ((ch = getopt(...)) != -1)` loop of lines 262-274, over the option
characters that `getopt` returns; `none` when `usage` is called. -/
def getopt_loop : List Char → Nat → Option Nat
  | [], cmd => some cmd
  | ch :: rest, _ =>
    if ch = 'g' then getopt_loop rest 1
    else if ch = 'u' then getopt_loop rest 2
    else none

/-- The function `usage(name)` (lines 85-94): prints the usage text and calls `exit(0)`. -/
def usage {α : Type} (name : List Char) (p : Proc) : Res α :=
  .exit .usage 0 (p.print (.usage name))

/-- The function `main`: `name` is `argv[0]`, `opts` the option characters returned by
`getopt`, `args` the arguments left after them. The result is the exit status. -/
def main (w : World) (name : List Char) (opts : List Char) (args : List (List Char)) :
    Res Nat :=
  let p := Proc.init
  match getopt_loop opts 0 with
  | none => usage name p
  | some cmd =>
    if cmd = 0 then usage name p
    else
      match args with
      | [] => .exit .main_ifname 1 p
      | ifname :: _ =>
        if cmd = 1 then
          match show_info w ifname false p with
          | .exit site code p => .exit site code p
          | .ret _ p => .ret 0 p
        else
          match update_nvm w ifname p with
          | .exit site code p => .exit site code p
          | .ret _ p => .ret 0 p

/-- The exit status of a run of `main`. -/
def exit_status : Res Nat → Nat
  | .exit _ code _ => code
  | .ret v _ => v

/-! ## Requests and calls, as the source builds them -/

/-- The first request of `show_info`: the read of the EMP SR settings pointer, made on
the freshly allocated (zeroed) buffer. -/
def emp_sr_req (ifname : List Char) : ifdrv :=
  show_req ifname (emp_sr_nvm (List.replicate PHY_CAP_SIZE 0))

/-- The second request of `show_info`: the read of the PHY Capability LAN 0 pointer at word
index `p1 + 0x19`, where `p1` is the first word of the buffer `d1` after the first read.
It is only made when bit 15 of `p1` is clear, so that `p1 + 0x19` fits 16 bits. -/
def ptr_req (ifname : List Char) (d1 : List Nat) : ifdrv :=
  show_req ifname (read_nvm (word0 d1 + 0x19) 2 d1)

/-- The third request of `show_info` in dump mode: the read of the 13 words of the PHY
capability block at the resolved word offset, after the first two reads left `d1`, `d2`. -/
def cap_req (ifname : List Char) (d1 d2 : List Nat) : ifdrv :=
  show_req ifname (read_nvm ((word0 d1 + 0x19 + word0 d2) % 2 ^ 16)
    (PHY_CAP_SIZE * sizeof_uint16_t) d2)

/-- The call that reads lane `i`, as `update_nvm` builds it when the buffer holds `buf`. -/
def lane_read_call (ifname : List Char) (offset i : Nat) (buf : List Nat)
    (resp : Option (List Nat)) : Call :=
  ⟨.SIOCGDRVSPEC, upd_req ifname (misc_read_nvm offset i buf), resp⟩

/-- The call that writes lane `i` back, as `update_nvm` builds it after reading `d`. -/
def lane_write_call (ifname : List Char) (offset i : Nat) (d : List Nat)
    (resp : Option (List Nat)) : Call :=
  ⟨.SIOCSDRVSPEC,
    upd_req ifname (misc_write_nvm offset i (set_word0 d (u16 (word0 d &&& not32 (1 <<< 11))))),
    resp⟩

/-- The call that requests the checksum update, as `update_nvm` builds it when the buffer
holds `data`. -/
def csum_call (ifname : List Char) (data : List Nat) (resp : Option (List Nat)) : Call :=
  ⟨.SIOCSDRVSPEC, upd_req ifname (csum_nvm data), resp⟩

/-! ## Vocabulary for statements about a run -/

/-- The 16-bit word a call answered (0 when the call failed). -/
def Call.value (c : Call) : Nat := word0 (c.resp.getD [])

/-- The byte offset field of the request of a call. -/
def Call.offset (c : Call) : Nat := c.req.ifd_data.offset

/-- The 16-bit word answered by the `k`-th call of a run (0 when there is none). -/
def nth_value (calls : List Call) (k : Nat) : Nat :=
  match calls[k]? with
  | some c => c.value
  | none => 0

/-- The word offset resolved from the answers `p1`, `p2` to the first two calls of a run:
`(p1 + 0x19 + p2) mod 2^16`. -/
def resolved_offset (calls : List Call) : Nat :=
  (nth_value calls 0 + 0x19 + nth_value calls 1) % 2 ^ 16

/-- The byte offset of the `Misc` word of lane `i` of the block at word index `offset`:
twice the word index `offset + i * 0x0c + 0x08`. -/
def lane_offset (offset i : Nat) : Nat := 2 * (offset + i * 0x0c + 0x08)

/-- The call `x` addresses the `Misc` word of lane `i`: a 2-byte read through
`SIOCGDRVSPEC` or a 2-byte write through `SIOCSDRVSPEC`, with transaction flags `SA`. -/
def is_lane_call (offset i : Nat) (x : Call) : Prop :=
  x.offset = lane_offset offset i ∧
  x.req.ifd_data.config = 0x300 ∧
  x.req.ifd_data.data_size = 2 ∧
  x.req.ifd_len = sizeof_i40e_nvm_access + 2 ∧
  ((x.verb = .SIOCGDRVSPEC ∧ x.req.ifd_data.command = I40E_NVM_READ) ∨
   (x.verb = .SIOCSDRVSPEC ∧ x.req.ifd_data.command = I40E_NVM_WRITE))

/-- The checksum-recompute request: a write through `SIOCSDRVSPEC` with transaction flags
`SA | CSUM` (config `0xB00`), byte offset 0, data size 2 and payload 0. -/
def is_csum (c : Call) : Bool :=
  decide (c.verb = .SIOCSDRVSPEC ∧ c.req.ifd_data.command = I40E_NVM_WRITE ∧
    c.req.ifd_data.config = 0xB00 ∧ c.offset = 0 ∧ c.req.ifd_data.data_size = 2 ∧
    word0 c.req.ifd_data.data = 0)

/-- The number of lane reads of a run (reads after the resolver's two calls) that answered
a value with bit 11 set. -/
def changed_count (calls : List Call) : Nat :=
  ((calls.drop 2).filter
    (fun x => decide (x.verb = .SIOCGDRVSPEC ∧ x.value &&& (1 <<< 11) ≠ 0))).length

/-- The calls that the lane loop adds to those made before it. -/
def loop_seg (w : World) (ifname : List Char) (offset : Nat) (lanes : List Nat) (l : Loop)
    (p : Proc) : List Call :=
  (update_nvm_loop w ifname offset lanes l p).calls.drop p.calls.length

/-! ## Exit sites -/

/-- The exit status written at each site: the first argument of its `err`/`errx` call
(or of `exit`, for `usage`). -/
def Site.status : Site → Nat
  | .usage => 0
  | .show_calloc => 1
  | .show_socket => 2
  | .show_ioctl_emp => 3
  | .show_4k => 1
  | .show_ioctl_ptr => 4
  | .show_ioctl_cap => 5
  | .upd_show_info => 1
  | .upd_calloc => 1
  | .upd_ioctl_read => 2
  | .upd_ioctl_write => 3
  | .upd_ioctl_csum => 4
  | .main_ifname => 1

/-- The sites that follow a failed call on the control channel (`socket` or `ioctl`);
they are the sites that use `err` with a status other than 1. -/
def Site.transport : Site → Bool
  | .show_socket => true
  | .show_ioctl_emp => true
  | .show_ioctl_ptr => true
  | .show_ioctl_cap => true
  | .upd_ioctl_read => true
  | .upd_ioctl_write => true
  | .upd_ioctl_csum => true
  | _ => false

/-- The sites that lie in the function `show_info`. -/
def Site.in_show_info : Site → Bool
  | .show_calloc => true
  | .show_socket => true
  | .show_ioctl_emp => true
  | .show_4k => true
  | .show_ioctl_ptr => true
  | .show_ioctl_cap => true
  | _ => false

/-! ## Concrete worlds -/

/-- A world in which both allocations succeed, `socket` returns `fd`, and the `k`-th
ioctl call is answered by the `k`-th element of `script` (failure once it runs out). -/
def scripted (fd : Int) (script : List (Option (List Nat))) : World :=
  { calloc := fun _ => true
    socket := fd
    ioctl := fun hist _ _ => (script.getD hist.length none) }


/-! ## Vocabulary for statements about a run -/

/-- A world in which every allocation fails. -/
def alloc_failing : World :=
  { calloc := fun _ => false
    socket := 3
    ioctl := fun _ _ _ => none }

/-! ## Arithmetic facts -/

theorem word0_lt (d : List Nat) : word0 d < 2 ^ 16 := by
  unfold word0 u16
  exact Nat.mod_lt _ (by norm_num)

theorem lt_of_bit15_clear (x : Nat) (hx : x < 2 ^ 16) (h : x &&& 0x8000 = 0) :
    x < 0x8000 := by
  by_contra hge
  have hdiv : x / 32768 % 2 = 1 := by omega
  have ht : x.testBit 15 = true := by
    rw [Nat.testBit_to_div_mod]; simpa using hdiv
  have h2 : (x &&& 0x8000).testBit 15 = true := by
    rw [Nat.testBit_and, ht]; decide
  rw [h] at h2
  simp at h2

/-! ## Offset resolution -/

/-- C1: when `show_info` is called with a non-NULL `offp`, the first word `p1` (read at
word index 0x48) has bit 15 clear and the read at word index `p1 + 0x19` answers `p2`,
the function returns with `*offp = (p1 + 0x19 + p2) mod 2^16`, after exactly these two
reads. -/
theorem show_info_resolves_offset (w : World) (ifname : List Char) (d1 d2 : List Nat)
    (hc : w.calloc 0 = true) (hs : w.socket ≠ -1)
    (h1 : w.ioctl [] .SIOCGDRVSPEC (emp_sr_req ifname) = some d1)
    (hb : word0 d1 &&& 0x8000 = 0)
    (h2 : w.ioctl [⟨.SIOCGDRVSPEC, emp_sr_req ifname, some d1⟩] .SIOCGDRVSPEC
        (ptr_req ifname d1) = some d2) :
    (emp_sr_req ifname).ifd_data.offset = 2 * 0x48 ∧
    (ptr_req ifname d1).ifd_data.offset = 2 * (word0 d1 + 0x19) ∧
    show_info w ifname true Proc.init =
      .ret (w.socket, some ((word0 d1 + 0x19 + word0 d2) % 2 ^ 16))
        { calls := [⟨.SIOCGDRVSPEC, emp_sr_req ifname, some d1⟩,
                    ⟨.SIOCGDRVSPEC, ptr_req ifname d1, some d2⟩],
          out := [], slept := 0 } := by
  have hlt := lt_of_bit15_clear _ (word0_lt d1) hb
  have hu : u16 (word0 d1 + PHY_CAP_OFFSET) = word0 d1 + 0x19 := by
    unfold u16 PHY_CAP_OFFSET
    exact Nat.mod_eq_of_lt (by omega)
  refine ⟨rfl, ?_, ?_⟩
  · simp only [ptr_req, show_req, read_nvm, u32, sizeof_uint16_t]
    omega
  · unfold emp_sr_req at h1 h2
    unfold ptr_req at h2
    simp only [show_info, hc, hs, Proc.init, Proc.call, Proc.print, h1, hb, hu,
      sizeof_uint16_t, List.nil_append]
    simp [u16, h2, emp_sr_req, ptr_req]

/-- C1 at the end-to-end scenario A: `p1 = 0x0010`, `p2 = 0x0005` resolve to `0x002E`. -/
theorem show_info_resolves_offset_witness :
    ∃ p, show_info (scripted 3 [some [0x0010], some [0x0005]]) ['i', 'x', 'l', '0'] true
      Proc.init = .ret (3, some 0x002E) p :=
  ⟨_, (show_info_resolves_offset (scripted 3 [some [0x0010], some [0x0005]])
    ['i', 'x', 'l', '0'] [0x0010] [0x0005] rfl (by decide) rfl (by decide) rfl).2.2⟩

/-- C2: when the first pointer word has bit 15 set, the run ends at the `errx` of line 135
with status 1 after exactly one ioctl call, the read of the EMP SR pointer, in dump mode
and in patch mode alike. -/
theorem show_info_4k_aborts (w : World) (ifname : List Char) (d1 : List Nat)
    (hc : w.calloc 0 = true) (hs : w.socket ≠ -1)
    (h1 : w.ioctl [] .SIOCGDRVSPEC (emp_sr_req ifname) = some d1)
    (hb : word0 d1 &&& 0x8000 ≠ 0) :
    show_info w ifname false Proc.init = .exit .show_4k 1
      { calls := [⟨.SIOCGDRVSPEC, emp_sr_req ifname, some d1⟩],
        out := [.emp_sr (word0 d1)], slept := 0 } ∧
    update_nvm w ifname Proc.init = .exit .show_4k 1
      { calls := [⟨.SIOCGDRVSPEC, emp_sr_req ifname, some d1⟩], out := [], slept := 0 } ∧
    (∀ name args, exit_status (main w name ['g'] (ifname :: args)) = 1 ∧
      (main w name ['g'] (ifname :: args)).calls
        = [⟨.SIOCGDRVSPEC, emp_sr_req ifname, some d1⟩]) ∧
    (∀ name args, exit_status (main w name ['u'] (ifname :: args)) = 1 ∧
      (main w name ['u'] (ifname :: args)).calls
        = [⟨.SIOCGDRVSPEC, emp_sr_req ifname, some d1⟩]) := by
  have hd : show_info w ifname false Proc.init = .exit .show_4k 1
      { calls := [⟨.SIOCGDRVSPEC, emp_sr_req ifname, some d1⟩],
        out := [.emp_sr (word0 d1)], slept := 0 } := by
    unfold emp_sr_req at h1
    simp [show_info, hc, hs, Proc.init, Proc.call, Proc.print, h1, hb, emp_sr_req]
  have hu : show_info w ifname true Proc.init = .exit .show_4k 1
      { calls := [⟨.SIOCGDRVSPEC, emp_sr_req ifname, some d1⟩], out := [], slept := 0 } := by
    unfold emp_sr_req at h1
    simp [show_info, hc, hs, Proc.init, Proc.call, h1, hb, emp_sr_req]
  have hp : update_nvm w ifname Proc.init = .exit .show_4k 1
      { calls := [⟨.SIOCGDRVSPEC, emp_sr_req ifname, some d1⟩], out := [], slept := 0 } := by
    simp [update_nvm, hu]
  refine ⟨hd, hp, ?_, ?_⟩
  · intro name args
    simp [main, getopt_loop, hd, exit_status, Res.calls, Res.proc]
  · intro name args
    simp [main, getopt_loop, hp, exit_status, Res.calls, Res.proc]

/-- C2 at the end-to-end scenario D: the EMP SR pointer word is `0x8005`. -/
theorem show_info_4k_aborts_witness :
    exit_status (main (scripted 3 [some [0x8005], some [0x0005], some [0x0800]]) []
      ['u'] [['i', 'x', 'l', '0']]) = 1 ∧
    (main (scripted 3 [some [0x8005], some [0x0005], some [0x0800]]) []
      ['u'] [['i', 'x', 'l', '0']]).calls
        = [⟨.SIOCGDRVSPEC, emp_sr_req ['i', 'x', 'l', '0'], some [0x8005]⟩] :=
  (show_info_4k_aborts (scripted 3 [some [0x8005], some [0x0005], some [0x0800]])
    ['i', 'x', 'l', '0'] [0x8005] rfl (by decide) rfl (by decide)).2.2.2 [] []

/-! ## The lane loop of `update_nvm` -/

theorem clear_bit11_eq (v : Nat) (hv : v < 2 ^ 16) :
    u16 (v &&& not32 (1 <<< 11)) = v &&& 0xF7FF := by
  apply Nat.eq_of_testBit_eq
  intro j
  have hK : not32 (1 <<< 11) = 4294965247 := by decide
  unfold u16
  rw [hK, Nat.testBit_mod_two_pow, Nat.testBit_and, Nat.testBit_and]
  by_cases hj : j < 16
  · have hk : Nat.testBit 4294965247 j = Nat.testBit 0xF7FF j := by
      interval_cases j <;> decide
    simp [hj, hk]
  · have hf : v.testBit j = false := by
      apply Nat.testBit_lt_two_pow
      calc v < 2 ^ 16 := hv
        _ ≤ 2 ^ j := Nat.pow_le_pow_right (by norm_num) (by omega)
    simp [hf]

theorem lane_offset_eq (offset i : Nat) (ho : offset < 2 ^ 16) (hi : i < 4) :
    u32 ((offset + i * 0x0c + 0x08) * sizeof_uint16_t) = 2 * (offset + i * 0x0c + 0x08) := by
  unfold u32 sizeof_uint16_t
  rw [Nat.mod_eq_of_lt (by omega)]
  omega

theorem lane_cases (w : World) (ifname : List Char) (offset i : Nat) (l : Loop) (p : Proc) :
    (∃ p1, update_nvm_lane w ifname offset i l p = .exit .upd_ioctl_read 2 p1 ∧
      p1.calls = p.calls ++ [lane_read_call ifname offset i l.data none]) ∨
    (∃ d p1, word0 d &&& (1 <<< 11) = 0 ∧
      update_nvm_lane w ifname offset i l p = .ret ⟨l.c, d⟩ p1 ∧
      p1.calls = p.calls ++ [lane_read_call ifname offset i l.data (some d)]) ∨
    (∃ d p1, word0 d &&& (1 <<< 11) ≠ 0 ∧
      update_nvm_lane w ifname offset i l p = .exit .upd_ioctl_write 3 p1 ∧
      p1.calls = p.calls ++ [lane_read_call ifname offset i l.data (some d),
        lane_write_call ifname offset i d none]) ∨
    (∃ d d1 p1, word0 d &&& (1 <<< 11) ≠ 0 ∧
      update_nvm_lane w ifname offset i l p = .ret ⟨l.c + 1, d1⟩ p1 ∧
      p1.calls = p.calls ++ [lane_read_call ifname offset i l.data (some d),
        lane_write_call ifname offset i d (some d1)]) := by
  cases h : w.ioctl p.calls .SIOCGDRVSPEC (upd_req ifname (misc_read_nvm offset i l.data)) with
  | none =>
    left
    refine ⟨_, by simp only [update_nvm_lane, h]; rfl, ?_⟩
    simp [Proc.call, lane_read_call]
  | some d =>
    right
    by_cases hb : word0 d &&& (1 <<< 11) = 0
    · left
      refine ⟨d, _, hb, by simp only [update_nvm_lane, h, hb]; rfl, ?_⟩
      simp [Proc.call, Proc.print, lane_read_call]
    · right
      cases h2 : w.ioctl (p.calls ++ [lane_read_call ifname offset i l.data (some d)])
          .SIOCSDRVSPEC (upd_req ifname (misc_write_nvm offset i
            (set_word0 d (u16 (word0 d &&& not32 (1 <<< 11)))))) with
      | none =>
        left
        simp only [lane_read_call] at h2
        refine ⟨d, _, hb, by simp only [update_nvm_lane, h, hb, Proc.call, Proc.print, h2]; rfl, ?_⟩
        simp [Proc.call, Proc.print, lane_read_call, lane_write_call]
      | some d1 =>
        right
        simp only [lane_read_call] at h2
        refine ⟨d, d1, _, hb, by simp only [update_nvm_lane, h, hb, Proc.call, Proc.print, h2]; rfl, ?_⟩
        simp [Proc.call, Proc.print, Proc.sleep, lane_read_call, lane_write_call]

theorem loop_calls_extend (w : World) (ifname : List Char) (offset : Nat) (lanes : List Nat) :
    ∀ (l : Loop) (p : Proc),
      ∃ seg, (update_nvm_loop w ifname offset lanes l p).calls = p.calls ++ seg := by
  induction lanes with
  | nil => intro l p; exact ⟨[], by simp [update_nvm_loop, Res.calls, Res.proc]⟩
  | cons i rest ih =>
    intro l p
    rcases lane_cases w ifname offset i l p with
      ⟨p1, h, hc⟩ | ⟨d, p1, _, h, hc⟩ | ⟨d, p1, _, h, hc⟩ | ⟨d, d1, p1, _, h, hc⟩
    · exact ⟨_, by simp only [update_nvm_loop, h, Res.calls, Res.proc]; exact hc⟩
    · obtain ⟨seg, hs⟩ := ih ⟨l.c, d⟩ p1
      exact ⟨_, by simp only [update_nvm_loop, h]; rw [hs, hc, List.append_assoc]⟩
    · exact ⟨_, by simp only [update_nvm_loop, h, Res.calls, Res.proc]; exact hc⟩
    · obtain ⟨seg, hs⟩ := ih ⟨l.c + 1, d1⟩ p1
      exact ⟨_, by simp only [update_nvm_loop, h]; rw [hs, hc, List.append_assoc]⟩

theorem loop_calls_eq (w : World) (ifname : List Char) (offset : Nat) (lanes : List Nat)
    (l : Loop) (p : Proc) :
    (update_nvm_loop w ifname offset lanes l p).calls
      = p.calls ++ loop_seg w ifname offset lanes l p := by
  obtain ⟨seg, hs⟩ := loop_calls_extend w ifname offset lanes l p
  simp [loop_seg, hs]

theorem loop_seg_nil (w : World) (ifname : List Char) (offset : Nat) (l : Loop) (p : Proc) :
    loop_seg w ifname offset [] l p = [] := by
  simp [loop_seg, update_nvm_loop, Res.calls, Res.proc]

theorem loop_cons_cases (w : World) (ifname : List Char) (offset i : Nat) (rest : List Nat)
    (l : Loop) (p : Proc) :
    (∃ p1, update_nvm_loop w ifname offset (i :: rest) l p = .exit .upd_ioctl_read 2 p1 ∧
      loop_seg w ifname offset (i :: rest) l p = [lane_read_call ifname offset i l.data none]) ∨
    (∃ d p1, word0 d &&& (1 <<< 11) = 0 ∧
      update_nvm_loop w ifname offset (i :: rest) l p
        = update_nvm_loop w ifname offset rest ⟨l.c, d⟩ p1 ∧
      loop_seg w ifname offset (i :: rest) l p
        = lane_read_call ifname offset i l.data (some d)
            :: loop_seg w ifname offset rest ⟨l.c, d⟩ p1) ∨
    (∃ d p1, word0 d &&& (1 <<< 11) ≠ 0 ∧
      update_nvm_loop w ifname offset (i :: rest) l p = .exit .upd_ioctl_write 3 p1 ∧
      loop_seg w ifname offset (i :: rest) l p
        = [lane_read_call ifname offset i l.data (some d),
            lane_write_call ifname offset i d none]) ∨
    (∃ d d1 p1, word0 d &&& (1 <<< 11) ≠ 0 ∧
      update_nvm_loop w ifname offset (i :: rest) l p
        = update_nvm_loop w ifname offset rest ⟨l.c + 1, d1⟩ p1 ∧
      loop_seg w ifname offset (i :: rest) l p
        = lane_read_call ifname offset i l.data (some d)
            :: lane_write_call ifname offset i d (some d1)
            :: loop_seg w ifname offset rest ⟨l.c + 1, d1⟩ p1) := by
  rcases lane_cases w ifname offset i l p with
    ⟨p1, h, hc⟩ | ⟨d, p1, hb, h, hc⟩ | ⟨d, p1, hb, h, hc⟩ | ⟨d, d1, p1, hb, h, hc⟩
  · left
    have hr : update_nvm_loop w ifname offset (i :: rest) l p = .exit .upd_ioctl_read 2 p1 := by
      simp only [update_nvm_loop, h]
    exact ⟨p1, hr, by simp [loop_seg, hr, Res.calls, Res.proc, hc]⟩
  · right; left
    have hr : update_nvm_loop w ifname offset (i :: rest) l p
        = update_nvm_loop w ifname offset rest ⟨l.c, d⟩ p1 := by
      simp only [update_nvm_loop, h]
    refine ⟨d, p1, hb, hr, ?_⟩
    have := loop_calls_eq w ifname offset rest ⟨l.c, d⟩ p1
    rw [loop_seg, hr, this, hc]
    simp
  · right; right; left
    have hr : update_nvm_loop w ifname offset (i :: rest) l p = .exit .upd_ioctl_write 3 p1 := by
      simp only [update_nvm_loop, h]
    exact ⟨d, p1, hb, hr, by simp [loop_seg, hr, Res.calls, Res.proc, hc]⟩
  · right; right; right
    have hr : update_nvm_loop w ifname offset (i :: rest) l p
        = update_nvm_loop w ifname offset rest ⟨l.c + 1, d1⟩ p1 := by
      simp only [update_nvm_loop, h]
    refine ⟨d, d1, p1, hb, hr, ?_⟩
    have := loop_calls_eq w ifname offset rest ⟨l.c + 1, d1⟩ p1
    rw [loop_seg, hr, this, hc]
    simp

theorem lane_read_call_is_lane_call (ifname : List Char) (offset i : Nat) (buf : List Nat)
    (resp : Option (List Nat)) (ho : offset < 2 ^ 16) (hi : i < 4) :
    is_lane_call offset i (lane_read_call ifname offset i buf resp) := by
  refine ⟨?_, rfl, rfl, rfl, Or.inl ⟨rfl, rfl⟩⟩
  simp only [Call.offset, lane_read_call, upd_req, misc_read_nvm, lane_offset]
  exact lane_offset_eq offset i ho hi

theorem lane_write_call_is_lane_call (ifname : List Char) (offset i : Nat) (d : List Nat)
    (resp : Option (List Nat)) (ho : offset < 2 ^ 16) (hi : i < 4) :
    is_lane_call offset i (lane_write_call ifname offset i d resp) := by
  refine ⟨?_, rfl, rfl, rfl, Or.inr ⟨rfl, rfl⟩⟩
  simp only [Call.offset, lane_write_call, upd_req, misc_write_nvm, lane_offset]
  exact lane_offset_eq offset i ho hi

theorem lane_write_call_payload (ifname : List Char) (offset i : Nat) (d : List Nat)
    (resp : Option (List Nat)) :
    word0 (lane_write_call ifname offset i d resp).req.ifd_data.data = word0 d &&& 0xF7FF := by
  simp only [lane_write_call, upd_req, misc_write_nvm, set_word0, word0, List.headD_cons]
  have h := clear_bit11_eq (u16 (d.headD 0)) (by unfold u16; exact Nat.mod_lt _ (by norm_num))
  rw [h]
  unfold u16
  rw [Nat.mod_eq_of_lt, Nat.mod_eq_of_lt]
  · exact lt_of_le_of_lt Nat.and_le_right (by norm_num)
  · rw [Nat.mod_eq_of_lt]
    · exact lt_of_le_of_lt Nat.and_le_right (by norm_num)
    · exact lt_of_le_of_lt Nat.and_le_right (by norm_num)

/-- Every call of the lane loop addresses one of the lanes the loop visits. -/
theorem loop_seg_shape (w : World) (ifname : List Char) (offset : Nat) (ho : offset < 2 ^ 16)
    (lanes : List Nat) (hl : ∀ j ∈ lanes, j < 4) :
    ∀ (l : Loop) (p : Proc), ∀ x ∈ loop_seg w ifname offset lanes l p,
      ∃ j ∈ lanes, is_lane_call offset j x := by
  induction lanes with
  | nil => intro l p x hx; simp [loop_seg_nil] at hx
  | cons i rest ih =>
    intro l p x hx
    have hi : i < 4 := hl i (List.mem_cons_self _ _)
    have ih1 := ih (fun j hj => hl j (List.mem_cons_of_mem _ hj))
    rcases loop_cons_cases w ifname offset i rest l p with
      ⟨p1, _, hs⟩ | ⟨d, p1, _, _, hs⟩ | ⟨d, p1, _, _, hs⟩ | ⟨d, d1, p1, _, _, hs⟩
    · rw [hs] at hx
      simp only [List.mem_singleton] at hx
      exact ⟨i, List.mem_cons_self _ _, hx ▸ lane_read_call_is_lane_call _ _ _ _ _ ho hi⟩
    · rw [hs] at hx
      rcases List.mem_cons.mp hx with hx | hx
      · exact ⟨i, List.mem_cons_self _ _, hx ▸ lane_read_call_is_lane_call _ _ _ _ _ ho hi⟩
      · obtain ⟨j, hj, hc⟩ := ih1 _ _ x hx
        exact ⟨j, List.mem_cons_of_mem _ hj, hc⟩
    · rw [hs] at hx
      simp only [List.mem_cons, List.mem_singleton, List.not_mem_nil, or_false] at hx
      rcases hx with hx | hx
      · exact ⟨i, List.mem_cons_self _ _, hx ▸ lane_read_call_is_lane_call _ _ _ _ _ ho hi⟩
      · exact ⟨i, List.mem_cons_self _ _, hx ▸ lane_write_call_is_lane_call _ _ _ _ _ ho hi⟩
    · rw [hs] at hx
      rcases List.mem_cons.mp hx with hx | hx
      · exact ⟨i, List.mem_cons_self _ _, hx ▸ lane_read_call_is_lane_call _ _ _ _ _ ho hi⟩
      · rcases List.mem_cons.mp hx with hx | hx
        · exact ⟨i, List.mem_cons_self _ _, hx ▸ lane_write_call_is_lane_call _ _ _ _ _ ho hi⟩
        · obtain ⟨j, hj, hc⟩ := ih1 _ _ x hx
          exact ⟨j, List.mem_cons_of_mem _ hj, hc⟩

@[simp] theorem lane_read_call_verb (ifname : List Char) (offset i : Nat) (buf : List Nat)
    (resp : Option (List Nat)) :
    (lane_read_call ifname offset i buf resp).verb = .SIOCGDRVSPEC := rfl

@[simp] theorem lane_write_call_verb (ifname : List Char) (offset i : Nat) (d : List Nat)
    (resp : Option (List Nat)) :
    (lane_write_call ifname offset i d resp).verb = .SIOCSDRVSPEC := rfl

@[simp] theorem lane_read_call_resp (ifname : List Char) (offset i : Nat) (buf : List Nat)
    (resp : Option (List Nat)) :
    (lane_read_call ifname offset i buf resp).resp = resp := rfl

@[simp] theorem lane_write_call_resp (ifname : List Char) (offset i : Nat) (d : List Nat)
    (resp : Option (List Nat)) :
    (lane_write_call ifname offset i d resp).resp = resp := rfl

@[simp] theorem lane_read_call_value (ifname : List Char) (offset i : Nat) (buf d : List Nat) :
    (lane_read_call ifname offset i buf (some d)).value = word0 d := rfl

/-- How the lane loop ends: it returns after as many reads as lanes, every call having
succeeded and `c` counting the writes; or it exits at its first failed call. -/
theorem loop_result (w : World) (ifname : List Char) (offset : Nat) (lanes : List Nat) :
    ∀ (l : Loop) (p : Proc),
      (∃ l1 p1, update_nvm_loop w ifname offset lanes l p = .ret l1 p1 ∧
        (∀ x ∈ loop_seg w ifname offset lanes l p, ∃ d, x.resp = some d) ∧
        l1.c = l.c + ((loop_seg w ifname offset lanes l p).filter
          (fun x => decide (x.verb = .SIOCSDRVSPEC))).length ∧
        l1.c = l.c + ((loop_seg w ifname offset lanes l p).filter
          (fun x => decide (x.verb = .SIOCGDRVSPEC ∧ x.value &&& (1 <<< 11) ≠ 0))).length ∧
        ((loop_seg w ifname offset lanes l p).filter
          (fun x => decide (x.verb = .SIOCGDRVSPEC))).length = lanes.length) ∨
      (∃ site code p1 pre x, update_nvm_loop w ifname offset lanes l p = .exit site code p1 ∧
        loop_seg w ifname offset lanes l p = pre ++ [x] ∧ x.resp = none ∧
        (∀ y ∈ pre, ∃ d, y.resp = some d) ∧
        ((site = .upd_ioctl_read ∧ code = 2 ∧ x.verb = .SIOCGDRVSPEC) ∨
         (site = .upd_ioctl_write ∧ code = 3 ∧ x.verb = .SIOCSDRVSPEC))) := by
  induction lanes with
  | nil =>
    intro l p
    left
    exact ⟨l, p, rfl, by simp [loop_seg_nil], by simp [loop_seg_nil], by simp [loop_seg_nil],
      by simp [loop_seg_nil]⟩
  | cons i rest ih =>
    intro l p
    rcases loop_cons_cases w ifname offset i rest l p with
      ⟨p1, hr, hs⟩ | ⟨d, p1, hb, hr, hs⟩ | ⟨d, p1, hb, hr, hs⟩ | ⟨d, d1, p1, hb, hr, hs⟩
    · right
      exact ⟨_, _, p1, [], _, hr, by rw [hs]; rfl, rfl, by simp, Or.inl ⟨rfl, rfl, rfl⟩⟩
    · rcases ih ⟨l.c, d⟩ p1 with
        ⟨l1, p2, hr2, hall, hc1, hc2, hn⟩ | ⟨site, code, p2, pre, x, hr2, hs2, hx, hpre, hsite⟩
      · left
        refine ⟨l1, p2, by rw [hr, hr2], ?_, ?_, ?_, ?_⟩
        · intro x hx
          rw [hs] at hx
          rcases List.mem_cons.mp hx with hx | hx
          · exact ⟨d, by rw [hx]; rfl⟩
          · exact hall x hx
        · rw [hs, hc1, List.filter_cons_of_neg (by simp)]
        · have hb1 : word0 d &&& 2048 = 0 := hb
          rw [hs, hc2, List.filter_cons_of_neg (by simp [hb1])]
        · rw [hs, List.filter_cons_of_pos (by simp), List.length_cons, hn, List.length_cons]
      · right
        refine ⟨site, code, p2, lane_read_call ifname offset i l.data (some d) :: pre, x,
          by rw [hr, hr2], by rw [hs, hs2]; rfl, hx, ?_, hsite⟩
        intro y hy
        rcases List.mem_cons.mp hy with hy | hy
        · exact ⟨d, by rw [hy]; rfl⟩
        · exact hpre y hy
    · right
      exact ⟨_, _, p1, [lane_read_call ifname offset i l.data (some d)], _, hr,
        by rw [hs]; rfl, rfl, by simp, Or.inr ⟨rfl, rfl, rfl⟩⟩
    · rcases ih ⟨l.c + 1, d1⟩ p1 with
        ⟨l1, p2, hr2, hall, hc1, hc2, hn⟩ | ⟨site, code, p2, pre, x, hr2, hs2, hx, hpre, hsite⟩
      · left
        refine ⟨l1, p2, by rw [hr, hr2], ?_, ?_, ?_, ?_⟩
        · intro x hx
          rw [hs] at hx
          rcases List.mem_cons.mp hx with hx | hx
          · exact ⟨d, by rw [hx]; rfl⟩
          · rcases List.mem_cons.mp hx with hx | hx
            · exact ⟨d1, by rw [hx]; rfl⟩
            · exact hall x hx
        · rw [hs, hc1, List.filter_cons_of_neg (by simp), List.filter_cons_of_pos (by simp),
            List.length_cons]
          simp only []
          omega
        · have hb1 : word0 d &&& 2048 ≠ 0 := hb
          rw [hs, hc2, List.filter_cons_of_pos (by simp [hb1]),
            List.filter_cons_of_neg (by simp), List.length_cons]
          simp only []
          omega
        · rw [hs, List.filter_cons_of_pos (by simp), List.filter_cons_of_neg (by simp),
            List.length_cons, hn, List.length_cons]
      · right
        refine ⟨site, code, p2, lane_read_call ifname offset i l.data (some d)
          :: lane_write_call ifname offset i d (some d1) :: pre, x,
          by rw [hr, hr2], by rw [hs, hs2]; rfl, hx, ?_, hsite⟩
        intro y hy
        rcases List.mem_cons.mp hy with hy | hy
        · exact ⟨d, by rw [hy]; rfl⟩
        · rcases List.mem_cons.mp hy with hy | hy
          · exact ⟨d1, by rw [hy]; rfl⟩
          · exact hpre y hy

theorem lane_read_call_offset (ifname : List Char) (offset i : Nat) (buf : List Nat)
    (resp : Option (List Nat)) (ho : offset < 2 ^ 16) (hi : i < 4) :
    (lane_read_call ifname offset i buf resp).offset = lane_offset offset i :=
  (lane_read_call_is_lane_call ifname offset i buf resp ho hi).1

theorem lane_write_call_offset (ifname : List Char) (offset i : Nat) (d : List Nat)
    (resp : Option (List Nat)) (ho : offset < 2 ^ 16) (hi : i < 4) :
    (lane_write_call ifname offset i d resp).offset = lane_offset offset i :=
  (lane_write_call_is_lane_call ifname offset i d resp ho hi).1

/-- The calls of the later lanes address larger offsets than lane `i`. -/
theorem loop_seg_offset_gt (w : World) (ifname : List Char) (offset : Nat)
    (ho : offset < 2 ^ 16) (i : Nat) (rest : List Nat) (hl : ∀ j ∈ rest, j < 4)
    (hlt : ∀ j ∈ rest, i < j) (l : Loop) (p : Proc) :
    ∀ y ∈ loop_seg w ifname offset rest l p, lane_offset offset i < y.offset := by
  intro y hy
  obtain ⟨j, hj, hc⟩ := loop_seg_shape w ifname offset ho rest hl l p y hy
  have := hlt j hj
  rw [hc.1]
  unfold lane_offset
  omega

/-- The calls of the lane loop come in the order of their offsets. -/
theorem loop_seg_sorted (w : World) (ifname : List Char) (offset : Nat) (ho : offset < 2 ^ 16)
    (lanes : List Nat) (hl : ∀ j ∈ lanes, j < 4) (hs : lanes.Pairwise (· < ·)) :
    ∀ (l : Loop) (p : Proc),
      (loop_seg w ifname offset lanes l p).Pairwise (fun a b => a.offset ≤ b.offset) := by
  induction lanes with
  | nil => intro l p; simp [loop_seg_nil]
  | cons i rest ih =>
    intro l p
    have hi : i < 4 := hl i (List.mem_cons_self _ _)
    have hl1 : ∀ j ∈ rest, j < 4 := fun j hj => hl j (List.mem_cons_of_mem _ hj)
    have hlt : ∀ j ∈ rest, i < j := (List.pairwise_cons.mp hs).1
    have ih1 := ih hl1 (List.pairwise_cons.mp hs).2
    rcases loop_cons_cases w ifname offset i rest l p with
      ⟨p1, _, hsg⟩ | ⟨d, p1, _, _, hsg⟩ | ⟨d, p1, _, _, hsg⟩ | ⟨d, d1, p1, _, _, hsg⟩
    · rw [hsg]; simp
    · rw [hsg]
      refine List.pairwise_cons.mpr ⟨?_, ih1 _ _⟩
      intro y hy
      rw [lane_read_call_offset _ _ _ _ _ ho hi]
      exact le_of_lt (loop_seg_offset_gt w ifname offset ho i rest hl1 hlt _ _ y hy)
    · rw [hsg]
      simp [lane_read_call_offset _ _ _ _ _ ho hi, lane_write_call_offset _ _ _ _ _ ho hi]
    · rw [hsg]
      refine List.pairwise_cons.mpr ⟨?_, List.pairwise_cons.mpr ⟨?_, ih1 _ _⟩⟩
      · intro y hy
        rw [lane_read_call_offset _ _ _ _ _ ho hi]
        rcases List.mem_cons.mp hy with hy | hy
        · rw [hy, lane_write_call_offset _ _ _ _ _ ho hi]
        · exact le_of_lt (loop_seg_offset_gt w ifname offset ho i rest hl1 hlt _ _ y hy)
      · intro y hy
        rw [lane_write_call_offset _ _ _ _ _ ho hi]
        exact le_of_lt (loop_seg_offset_gt w ifname offset ho i rest hl1 hlt _ _ y hy)

/-- Within the lane loop, a read that answers `d` is followed by a write at the same offset
exactly when bit 11 of `d` is set; that write carries the cleared value and is the only
write at that offset. -/
theorem loop_seg_writes (w : World) (ifname : List Char) (offset : Nat) (ho : offset < 2 ^ 16)
    (lanes : List Nat) (hl : ∀ j ∈ lanes, j < 4) (hs : lanes.Pairwise (· < ·)) :
    ∀ (l : Loop) (p : Proc) (x : Call) (d : List Nat),
      x ∈ loop_seg w ifname offset lanes l p → x.verb = .SIOCGDRVSPEC → x.resp = some d →
      (word0 d &&& (1 <<< 11) = 0 →
        (loop_seg w ifname offset lanes l p).filter
          (fun c => decide (c.verb = .SIOCSDRVSPEC ∧ c.offset = x.offset)) = []) ∧
      (word0 d &&& (1 <<< 11) ≠ 0 →
        ∃ j ∈ lanes, ∃ r pre post,
          loop_seg w ifname offset lanes l p
            = pre ++ x :: lane_write_call ifname offset j d r :: post ∧
          (loop_seg w ifname offset lanes l p).filter
            (fun c => decide (c.verb = .SIOCSDRVSPEC ∧ c.offset = x.offset))
            = [lane_write_call ifname offset j d r]) := by
  induction lanes with
  | nil => intro l p x d hx; simp [loop_seg_nil] at hx
  | cons i rest ih =>
    intro l p x d hx hv hd
    have hi : i < 4 := hl i (List.mem_cons_self _ _)
    have hl1 : ∀ j ∈ rest, j < 4 := fun j hj => hl j (List.mem_cons_of_mem _ hj)
    have hlt : ∀ j ∈ rest, i < j := (List.pairwise_cons.mp hs).1
    have ih1 := ih hl1 (List.pairwise_cons.mp hs).2
    have hro := fun buf r => lane_read_call_offset ifname offset i buf r ho hi
    have hwo := fun d r => lane_write_call_offset ifname offset i d r ho hi
    -- no call of the later lanes is at the offset of lane `i`
    have hnone : ∀ (l1 : Loop) (p1 : Proc),
        (loop_seg w ifname offset rest l1 p1).filter
          (fun c => decide (c.verb = .SIOCSDRVSPEC ∧ c.offset = lane_offset offset i)) = [] := by
      intro l1 p1
      rw [List.filter_eq_nil_iff]
      intro y hy
      have := loop_seg_offset_gt w ifname offset ho i rest hl1 hlt l1 p1 y hy
      simp only [decide_eq_true_eq, not_and]
      intro _
      omega
    rcases loop_cons_cases w ifname offset i rest l p with
      ⟨p1, _, hsg⟩ | ⟨d0, p1, hb, _, hsg⟩ | ⟨d0, p1, hb, _, hsg⟩ | ⟨d0, d1, p1, hb, _, hsg⟩
    · rw [hsg] at hx
      simp only [List.mem_singleton] at hx
      rw [hx] at hd
      simp at hd
    · rw [hsg] at hx ⊢
      rcases List.mem_cons.mp hx with hx | hx
      · have hdd : d0 = d := by rw [hx] at hd; simpa using hd
        subst hdd
        refine ⟨fun _ => ?_, fun hne => absurd hb hne⟩
        rw [List.filter_cons_of_neg (by simp), hx, hro]
        exact hnone _ _
      · have hgt := loop_seg_offset_gt w ifname offset ho i rest hl1 hlt _ _ x hx
        obtain ⟨h1, h2⟩ := ih1 _ _ x d hx hv hd
        refine ⟨fun hc => ?_, fun hne => ?_⟩
        · rw [List.filter_cons_of_neg (by simp)]
          exact h1 hc
        · obtain ⟨j, hj, r, pre, post, hseg, hf⟩ := h2 hne
          refine ⟨j, List.mem_cons_of_mem _ hj, r,
            lane_read_call ifname offset i l.data (some d0) :: pre, post, ?_, ?_⟩
          · rw [hseg]; rfl
          · rw [List.filter_cons_of_neg (by simp)]
            exact hf
    · rw [hsg] at hx ⊢
      simp only [List.mem_cons, List.mem_singleton, List.not_mem_nil, or_false] at hx
      rcases hx with hx | hx
      · have hdd : d0 = d := by rw [hx] at hd; simpa using hd
        subst hdd
        refine ⟨fun hc => absurd hc hb, fun _ => ?_⟩
        refine ⟨i, List.mem_cons_self _ _, none, [], [], by rw [hx]; rfl, ?_⟩
        rw [List.filter_cons_of_neg (by simp), List.filter_cons_of_pos (by simp [hx, hro, hwo])]
        rfl
      · rw [hx] at hv
        simp at hv
    · rw [hsg] at hx ⊢
      rcases List.mem_cons.mp hx with hx | hx
      · have hdd : d0 = d := by rw [hx] at hd; simpa using hd
        subst hdd
        refine ⟨fun hc => absurd hc hb, fun _ => ?_⟩
        refine ⟨i, List.mem_cons_self _ _, some d1, [], _, by rw [hx]; rfl, ?_⟩
        rw [List.filter_cons_of_neg (by simp), List.filter_cons_of_pos (by simp [hx, hro, hwo]),
          hx, hro, hnone]
      · rcases List.mem_cons.mp hx with hx | hx
        · rw [hx] at hv
          simp at hv
        · have hgt := loop_seg_offset_gt w ifname offset ho i rest hl1 hlt _ _ x hx
          have hne1 : ¬ (lane_write_call ifname offset i d0 (some d1)).offset = x.offset := by
            rw [hwo]; omega
          obtain ⟨h1, h2⟩ := ih1 _ _ x d hx hv hd
          refine ⟨fun hc => ?_, fun hne => ?_⟩
          · rw [List.filter_cons_of_neg (by simp), List.filter_cons_of_neg (by simp [hne1])]
            exact h1 hc
          · obtain ⟨j, hj, r, pre, post, hseg, hf⟩ := h2 hne
            refine ⟨j, List.mem_cons_of_mem _ hj, r,
              lane_read_call ifname offset i l.data (some d0)
                :: lane_write_call ifname offset i d0 (some d1) :: pre, post, ?_, ?_⟩
            · rw [hseg]; rfl
            · rw [List.filter_cons_of_neg (by simp), List.filter_cons_of_neg (by simp [hne1])]
              exact hf

/-! ## The shape of a run of `update_nvm` -/

theorem show_info_resolver_cases (w : World) (ifname : List Char) :
    (∃ site code p, show_info w ifname true Proc.init = .exit site code p ∧
      p.calls.length ≤ 2 ∧
      ((site = .show_calloc ∧ code = 1) ∨ (site = .show_socket ∧ code = 2) ∨
       (site = .show_ioctl_emp ∧ code = 3) ∨ (site = .show_4k ∧ code = 1) ∨
       (site = .show_ioctl_ptr ∧ code = 4))) ∨
    (∃ d1 d2, word0 d1 &&& 0x8000 = 0 ∧ w.socket ≠ -1 ∧
      show_info w ifname true Proc.init =
        .ret (w.socket, some ((word0 d1 + 0x19 + word0 d2) % 2 ^ 16))
          { calls := [⟨.SIOCGDRVSPEC, emp_sr_req ifname, some d1⟩,
                      ⟨.SIOCGDRVSPEC, ptr_req ifname d1, some d2⟩],
            out := [], slept := 0 }) := by
  by_cases hc : w.calloc 0 = true
  swap
  · left
    exact ⟨_, _, _, by simp [show_info, hc]; rfl, by simp [Proc.init], Or.inl ⟨rfl, rfl⟩⟩
  by_cases hs : w.socket = -1
  · left
    exact ⟨_, _, _, by simp [show_info, hc, hs]; rfl, by simp [Proc.init],
      Or.inr (Or.inl ⟨rfl, rfl⟩)⟩
  cases h1 : w.ioctl [] .SIOCGDRVSPEC (emp_sr_req ifname) with
  | none =>
    left
    unfold emp_sr_req at h1
    exact ⟨_, _, _, by simp [show_info, hc, hs, Proc.init, Proc.call, h1]; rfl,
      by simp, Or.inr (Or.inr (Or.inl ⟨rfl, rfl⟩))⟩
  | some d1 =>
    by_cases hb : word0 d1 &&& 0x8000 = 0
    swap
    · left
      unfold emp_sr_req at h1
      exact ⟨_, _, _, by simp [show_info, hc, hs, Proc.init, Proc.call, h1, hb]; rfl,
        by simp, Or.inr (Or.inr (Or.inr (Or.inl ⟨rfl, rfl⟩)))⟩
    have hlt := lt_of_bit15_clear _ (word0_lt d1) hb
    have hu : u16 (word0 d1 + PHY_CAP_OFFSET) = word0 d1 + 0x19 := by
      unfold u16 PHY_CAP_OFFSET
      exact Nat.mod_eq_of_lt (by omega)
    cases h2 : w.ioctl [⟨.SIOCGDRVSPEC, emp_sr_req ifname, some d1⟩] .SIOCGDRVSPEC
        (ptr_req ifname d1) with
    | none =>
      left
      unfold emp_sr_req at h1 h2
      unfold ptr_req at h2
      refine ⟨.show_ioctl_ptr, 4,
        { calls := [⟨.SIOCGDRVSPEC, emp_sr_req ifname, some d1⟩,
                    ⟨.SIOCGDRVSPEC, ptr_req ifname d1, none⟩], out := [], slept := 0 },
        ?_, by simp, Or.inr (Or.inr (Or.inr (Or.inr ⟨rfl, rfl⟩)))⟩
      simp only [show_info, hc, hs, Proc.init, Proc.call, Proc.print, h1, hb, hu,
        sizeof_uint16_t, List.nil_append]
      simp [h2, emp_sr_req, ptr_req]
    | some d2 =>
      right
      unfold emp_sr_req at h1 h2
      unfold ptr_req at h2
      refine ⟨d1, d2, hb, hs, ?_⟩
      simp only [show_info, hc, hs, Proc.init, Proc.call, Proc.print, h1, hb, hu,
        sizeof_uint16_t, List.nil_append]
      simp [u16, h2, emp_sr_req, ptr_req]

theorem update_nvm_cases (w : World) (ifname : List Char) :
    (∃ site code p, update_nvm w ifname Proc.init = .exit site code p ∧
      p.calls = (show_info w ifname true Proc.init).calls ∧ p.calls.length ≤ 2 ∧
      ((site = .show_calloc ∧ code = 1) ∨ (site = .show_socket ∧ code = 2) ∨
       (site = .show_ioctl_emp ∧ code = 3) ∨ (site = .show_4k ∧ code = 1) ∨
       (site = .show_ioctl_ptr ∧ code = 4) ∨ (site = .upd_show_info ∧ code = 1) ∨
       (site = .upd_calloc ∧ code = 1)) ∧
      ((∃ s c q, show_info w ifname true Proc.init = .exit s c q) ∨ w.socket ≤ 0 ∨
        w.calloc 1 = false)) ∨
    (∃ d1 d2 off p0, word0 d1 &&& 0x8000 = 0 ∧ 0 < w.socket ∧ w.calloc 1 = true ∧
      off = (word0 d1 + 0x19 + word0 d2) % 2 ^ 16 ∧
      p0 = { calls := [⟨.SIOCGDRVSPEC, emp_sr_req ifname, some d1⟩,
                       ⟨.SIOCGDRVSPEC, ptr_req ifname d1, some d2⟩],
             out := [], slept := 0 } ∧
      show_info w ifname true Proc.init = .ret (w.socket, some off) p0 ∧
      ((∃ site code p1,
          update_nvm_loop w ifname off (List.range 4) ⟨0, [0]⟩ p0 = .exit site code p1 ∧
          update_nvm w ifname Proc.init = .exit site code p1) ∨
       (∃ l1 p1,
          update_nvm_loop w ifname off (List.range 4) ⟨0, [0]⟩ p0 = .ret l1 p1 ∧
          l1.c = 0 ∧ update_nvm w ifname Proc.init = .ret 0 p1) ∨
       (∃ l1 p1 r,
          update_nvm_loop w ifname off (List.range 4) ⟨0, [0]⟩ p0 = .ret l1 p1 ∧
          l1.c ≠ 0 ∧
          (update_nvm w ifname Proc.init).calls = p1.calls ++ [csum_call ifname l1.data r] ∧
          ((r = none ∧ ∃ p2, update_nvm w ifname Proc.init = .exit .upd_ioctl_csum 4 p2) ∨
           ((∃ d, r = some d) ∧ ∃ p2, update_nvm w ifname Proc.init = .ret l1.c p2))))) := by
  rcases show_info_resolver_cases w ifname with
    ⟨site, code, p, hsh, hlen, hsite⟩ | ⟨d1, d2, hb, hs, hsh⟩
  · left
    refine ⟨site, code, p, by simp [update_nvm, hsh], by simp [hsh, Res.calls, Res.proc], hlen,
      ?_, Or.inl ⟨site, code, p, hsh⟩⟩
    rcases hsite with h | h | h | h | h <;> simp [h.1, h.2]
  · by_cases hpos : w.socket ≤ 0
    · left
      exact ⟨_, _, _, by simp [update_nvm, hsh, hpos]; rfl, by simp [hsh, Res.calls, Res.proc],
        by simp, Or.inr (Or.inr (Or.inr (Or.inr (Or.inr (Or.inl ⟨rfl, rfl⟩))))),
        Or.inr (Or.inl hpos)⟩
    by_cases hc1 : w.calloc 1 = true
    swap
    · left
      exact ⟨_, _, _, by simp [update_nvm, hsh, hpos, hc1]; rfl,
        by simp [hsh, Res.calls, Res.proc],
        by simp, Or.inr (Or.inr (Or.inr (Or.inr (Or.inr (Or.inr ⟨rfl, rfl⟩))))),
        Or.inr (Or.inr (by simpa using hc1))⟩
    right
    obtain ⟨off, hoff⟩ : ∃ off, off = (word0 d1 + 0x19 + word0 d2) % 2 ^ 16 := ⟨_, rfl⟩
    obtain ⟨p0, hp0⟩ : ∃ p0 : Proc, p0 = { calls := [⟨.SIOCGDRVSPEC, emp_sr_req ifname, some d1⟩,
        ⟨.SIOCGDRVSPEC, ptr_req ifname d1, some d2⟩], out := [], slept := 0 } := ⟨_, rfl⟩
    rw [← hoff, ← hp0] at hsh
    refine ⟨d1, d2, off, p0, hb, by omega, hc1, hoff, hp0, hsh, ?_⟩
    cases hL : update_nvm_loop w ifname off (List.range 4) ⟨0, [0]⟩ p0 with
    | exit site code p1 =>
      left
      refine ⟨site, code, p1, rfl, ?_⟩
      simp only [update_nvm, hsh, hpos, hc1, Option.getD_some, List.replicate] 
      simp [hL]
    | ret l1 p1 =>
      right
      by_cases hz : l1.c = 0
      · left
        refine ⟨l1, p1, rfl, hz, ?_⟩
        simp only [update_nvm, hsh, hpos, hc1, Option.getD_some, List.replicate]
        simp [hL, hz]
      · right
        refine ⟨l1, p1, w.ioctl p1.calls .SIOCSDRVSPEC (upd_req ifname (csum_nvm l1.data)),
          rfl, hz, ?_, ?_⟩
        · simp only [update_nvm, hsh, hpos, hc1, Option.getD_some, List.replicate]
          simp only [hL, hz]
          cases w.ioctl p1.calls .SIOCSDRVSPEC (upd_req ifname (csum_nvm l1.data)) <;>
            simp [Res.calls, Res.proc, Proc.call, Proc.print, csum_call, hz]
        · cases hr : w.ioctl p1.calls .SIOCSDRVSPEC (upd_req ifname (csum_nvm l1.data)) with
          | none =>
            left
            refine ⟨rfl, ?_⟩
            simp only [update_nvm, hsh, hpos, hc1, Option.getD_some, List.replicate]
            simp [hL, hz, hr]
          | some d =>
            right
            refine ⟨⟨d, rfl⟩, ?_⟩
            simp only [update_nvm, hsh, hpos, hc1, Option.getD_some, List.replicate]
            simp [hL, hz, hr]

theorem range4_lt : ∀ j ∈ List.range 4, j < 4 := fun _ hj => List.mem_range.mp hj

theorem range4_sorted : (List.range 4).Pairwise (· < ·) := List.pairwise_lt_range 4

@[simp] theorem csum_call_verb (ifname : List Char) (data : List Nat) (r : Option (List Nat)) :
    (csum_call ifname data r).verb = .SIOCSDRVSPEC := rfl

@[simp] theorem csum_call_offset (ifname : List Char) (data : List Nat) (r : Option (List Nat)) :
    (csum_call ifname data r).offset = 0 := rfl

@[simp] theorem csum_call_resp (ifname : List Char) (data : List Nat) (r : Option (List Nat)) :
    (csum_call ifname data r).resp = r := rfl

/-- The calls of a run of `update_nvm`: those of the resolver alone when the run ends before
the loop; otherwise the two resolver reads, the calls of the lane loop, and at most one
checksum request. -/
theorem update_nvm_calls (w : World) (ifname : List Char) :
    ((update_nvm w ifname Proc.init).calls.length ≤ 2 ∧
      (update_nvm w ifname Proc.init).calls = (show_info w ifname true Proc.init).calls ∧
      (∃ site code p, update_nvm w ifname Proc.init = .exit site code p) ∧
      ((∃ s c q, show_info w ifname true Proc.init = .exit s c q) ∨ w.socket ≤ 0 ∨
        w.calloc 1 = false)) ∨
    (∃ d1 d2 off p0 tail, word0 d1 &&& 0x8000 = 0 ∧ 0 < w.socket ∧ w.calloc 1 = true ∧
      off = (word0 d1 + 0x19 + word0 d2) % 2 ^ 16 ∧
      p0 = { calls := [⟨.SIOCGDRVSPEC, emp_sr_req ifname, some d1⟩,
                       ⟨.SIOCGDRVSPEC, ptr_req ifname d1, some d2⟩],
             out := [], slept := 0 } ∧
      show_info w ifname true Proc.init = .ret (w.socket, some off) p0 ∧
      (update_nvm w ifname Proc.init).calls
        = ⟨.SIOCGDRVSPEC, emp_sr_req ifname, some d1⟩
          :: ⟨.SIOCGDRVSPEC, ptr_req ifname d1, some d2⟩
          :: (loop_seg w ifname off (List.range 4) ⟨0, [0]⟩ p0 ++ tail) ∧
      resolved_offset (update_nvm w ifname Proc.init).calls = off ∧
      ((tail = [] ∧ ∃ site code p1,
          update_nvm_loop w ifname off (List.range 4) ⟨0, [0]⟩ p0 = .exit site code p1 ∧
          update_nvm w ifname Proc.init = .exit site code p1) ∨
       (tail = [] ∧ ∃ l1 p1,
          update_nvm_loop w ifname off (List.range 4) ⟨0, [0]⟩ p0 = .ret l1 p1 ∧
          l1.c = 0 ∧ update_nvm w ifname Proc.init = .ret 0 p1) ∨
       (∃ l1 p1 r, tail = [csum_call ifname l1.data r] ∧
          update_nvm_loop w ifname off (List.range 4) ⟨0, [0]⟩ p0 = .ret l1 p1 ∧
          l1.c ≠ 0 ∧
          ((r = none ∧ ∃ p2, update_nvm w ifname Proc.init = .exit .upd_ioctl_csum 4 p2) ∨
           ((∃ d, r = some d) ∧ ∃ p2, update_nvm w ifname Proc.init = .ret l1.c p2))))) := by
  rcases update_nvm_cases w ifname with
    ⟨site, code, p, hR, hcalls, hlen, _, hwhy⟩ |
    ⟨d1, d2, off, p0, hb, hs, hc1, hoff, hp0, hsh, hrest⟩
  · left
    exact ⟨by rw [hR]; exact hlen, by rw [hR]; exact hcalls, ⟨site, code, p, hR⟩, hwhy⟩
  · right
    have hseg := loop_calls_eq w ifname off (List.range 4) ⟨0, [0]⟩ p0
    have hp0c : p0.calls = [⟨.SIOCGDRVSPEC, emp_sr_req ifname, some d1⟩,
        ⟨.SIOCGDRVSPEC, ptr_req ifname d1, some d2⟩] := by rw [hp0]
    have hres : ∀ rest : List Call,
        resolved_offset (⟨.SIOCGDRVSPEC, emp_sr_req ifname, some d1⟩
          :: ⟨.SIOCGDRVSPEC, ptr_req ifname d1, some d2⟩ :: rest) = off := by
      intro rest
      rw [hoff]
      simp [resolved_offset, nth_value, Call.value]
    rcases hrest with ⟨site, code, p1, hL, hR⟩ | ⟨l1, p1, hL, hz, hR⟩ |
      ⟨l1, p1, r, hL, hz, hcalls, hr⟩
    · have hc : (update_nvm w ifname Proc.init).calls
          = ⟨.SIOCGDRVSPEC, emp_sr_req ifname, some d1⟩
            :: ⟨.SIOCGDRVSPEC, ptr_req ifname d1, some d2⟩
            :: (loop_seg w ifname off (List.range 4) ⟨0, [0]⟩ p0 ++ []) := by
        have h2 : (update_nvm w ifname Proc.init).calls
            = (update_nvm_loop w ifname off (List.range 4) ⟨0, [0]⟩ p0).calls := by
          rw [hR, hL]; rfl
        rw [h2, hseg, hp0c]; simp
      exact ⟨d1, d2, off, p0, [], hb, hs, hc1, hoff, hp0, hsh, hc, by rw [hc]; exact hres _,
        Or.inl ⟨rfl, site, code, p1, hL, hR⟩⟩
    · have hc : (update_nvm w ifname Proc.init).calls
          = ⟨.SIOCGDRVSPEC, emp_sr_req ifname, some d1⟩
            :: ⟨.SIOCGDRVSPEC, ptr_req ifname d1, some d2⟩
            :: (loop_seg w ifname off (List.range 4) ⟨0, [0]⟩ p0 ++ []) := by
        have h2 : (update_nvm w ifname Proc.init).calls
            = (update_nvm_loop w ifname off (List.range 4) ⟨0, [0]⟩ p0).calls := by
          rw [hR, hL]; rfl
        rw [h2, hseg, hp0c]; simp
      exact ⟨d1, d2, off, p0, [], hb, hs, hc1, hoff, hp0, hsh, hc, by rw [hc]; exact hres _,
        Or.inr (Or.inl ⟨rfl, l1, p1, hL, hz, hR⟩)⟩
    · have hc : (update_nvm w ifname Proc.init).calls
          = ⟨.SIOCGDRVSPEC, emp_sr_req ifname, some d1⟩
            :: ⟨.SIOCGDRVSPEC, ptr_req ifname d1, some d2⟩
            :: (loop_seg w ifname off (List.range 4) ⟨0, [0]⟩ p0
                ++ [csum_call ifname l1.data r]) := by
        have h2 : p1.calls = (update_nvm_loop w ifname off (List.range 4) ⟨0, [0]⟩ p0).calls := by
          rw [hL]; rfl
        rw [hcalls, h2, hseg, hp0c]; simp
      exact ⟨d1, d2, off, p0, _, hb, hs, hc1, hoff, hp0, hsh, hc, by rw [hc]; exact hres _,
        Or.inr (Or.inr ⟨l1, p1, r, rfl, hL, hz, hr⟩)⟩

/-- A read call among the calls after the resolver's two is a call of the lane loop. -/
theorem read_mem_loop_seg (x : Call) (seg tail : List Call) (hv : x.verb = .SIOCGDRVSPEC)
    (ht : tail = [] ∨ ∃ ifname data r, tail = [csum_call ifname data r])
    (hx : x ∈ seg ++ tail) : x ∈ seg := by
  rcases List.mem_append.mp hx with h | h
  · exact h
  · rcases ht with ht | ⟨ifname, data, r, ht⟩
    · rw [ht] at h; simp at h
    · rw [ht] at h
      simp only [List.mem_singleton] at h
      rw [h] at hv
      simp at hv

theorem loop_ret_facts (w : World) (ifname : List Char) (offset : Nat) (lanes : List Nat)
    (l : Loop) (p : Proc) (l1 : Loop) (p1 : Proc)
    (h : update_nvm_loop w ifname offset lanes l p = .ret l1 p1) :
    (∀ x ∈ loop_seg w ifname offset lanes l p, ∃ d, x.resp = some d) ∧
    l1.c = l.c + ((loop_seg w ifname offset lanes l p).filter
      (fun x => decide (x.verb = .SIOCSDRVSPEC))).length ∧
    l1.c = l.c + ((loop_seg w ifname offset lanes l p).filter
      (fun x => decide (x.verb = .SIOCGDRVSPEC ∧ x.value &&& (1 <<< 11) ≠ 0))).length ∧
    ((loop_seg w ifname offset lanes l p).filter
      (fun x => decide (x.verb = .SIOCGDRVSPEC))).length = lanes.length := by
  rcases loop_result w ifname offset lanes l p with
    ⟨l2, p2, h2, hall, hc1, hc2, hn⟩ | ⟨site, code, p2, _, _, h2, _⟩
  · rw [h] at h2
    injection h2 with hl hp
    subst hl
    exact ⟨hall, hc1, hc2, hn⟩
  · rw [h] at h2
    cases h2

theorem loop_exit_facts (w : World) (ifname : List Char) (offset : Nat) (lanes : List Nat)
    (l : Loop) (p : Proc) (site : Site) (code : Nat) (p1 : Proc)
    (h : update_nvm_loop w ifname offset lanes l p = .exit site code p1) :
    ∃ pre x, loop_seg w ifname offset lanes l p = pre ++ [x] ∧ x.resp = none ∧
      (∀ y ∈ pre, ∃ d, y.resp = some d) ∧
      ((site = .upd_ioctl_read ∧ code = 2 ∧ x.verb = .SIOCGDRVSPEC) ∨
       (site = .upd_ioctl_write ∧ code = 3 ∧ x.verb = .SIOCSDRVSPEC)) := by
  rcases loop_result w ifname offset lanes l p with
    ⟨l2, p2, h2, _⟩ | ⟨site2, code2, p2, pre, x, h2, hs, hx, hpre, hsite⟩
  · rw [h] at h2
    cases h2
  · rw [h] at h2
    injection h2 with h1 h2 h3
    subst h1 h2
    exact ⟨pre, x, hs, hx, hpre, hsite⟩

/-- The count that `update_nvm` ends with is the number of lane reads that answered a value
with bit 11 set. -/
theorem update_nvm_ret_count (w : World) (ifname : List Char) :
    ∀ c p, update_nvm w ifname Proc.init = .ret c p →
      c = ((p.calls.drop 2).filter
        (fun x => decide (x.verb = .SIOCGDRVSPEC ∧ x.value &&& (1 <<< 11) ≠ 0))).length := by
  intro c p hR
  rcases update_nvm_calls w ifname with
    ⟨_, _, ⟨site, code, p1, hE⟩, _⟩ |
    ⟨d1, d2, off, p0, tail, _, _, _, _, _, _, hcalls, _, htail⟩
  · rw [hR] at hE; cases hE
  · have hpc : p.calls = (update_nvm w ifname Proc.init).calls := by rw [hR]; rfl
    rw [hpc, hcalls]
    simp only [List.drop_succ_cons, List.drop_zero]
    rcases htail with ⟨_, site, code, p1, _, hE⟩ | ⟨ht, l1, p1, hL, hz, hR2⟩ |
      ⟨l1, p1, r, ht, hL, hz, hr⟩
    · rw [hR] at hE; cases hE
    · rw [hR] at hR2
      injection hR2 with hc _
      have := (loop_ret_facts w ifname off (List.range 4) ⟨0, [0]⟩ p0 l1 p1 hL).2.2.1
      rw [ht, List.append_nil, hc]
      rw [hz] at this
      simpa using this
    · rcases hr with ⟨_, p2, hE⟩ | ⟨_, p2, hR2⟩
      · rw [hR] at hE; cases hE
      · rw [hR] at hR2
        injection hR2 with hc _
        have := (loop_ret_facts w ifname off (List.range 4) ⟨0, [0]⟩ p0 l1 p1 hL).2.2.1
        rw [ht, List.filter_append, List.filter_cons_of_neg (by simp), hc]
        simpa using this

/-- C4: in a run of `update_nvm`, a lane read that answers a value with bit 11 clear is
followed by no write to that lane: the run has no write call at its offset. The
changed-count returned counts exactly the lane reads that answered a value with bit 11
set. In particular, when the lane loop is reached (the run makes a call after the
resolver's two) and every call after those two answers a value with bit 11 clear, the run
makes six calls, all of them reads (no lane write, no checksum write), returns with
changed-count 0, and `main` ends with exit status 0. -/
theorem update_nvm_skips_clear_lanes (w : World) (ifname : List Char) :
    (∀ x ∈ (update_nvm w ifname Proc.init).calls.drop 2, x.verb = .SIOCGDRVSPEC →
      ∀ d, x.resp = some d → word0 d &&& (1 <<< 11) = 0 →
        (update_nvm w ifname Proc.init).calls.filter
          (fun c => decide (c.verb = .SIOCSDRVSPEC ∧ c.offset = x.offset)) = []) ∧
    (∀ c p, update_nvm w ifname Proc.init = .ret c p →
      c = ((p.calls.drop 2).filter
        (fun x => decide (x.verb = .SIOCGDRVSPEC ∧ x.value &&& (1 <<< 11) ≠ 0))).length) ∧
    ((update_nvm w ifname Proc.init).calls.drop 2 ≠ [] →
      (∀ x ∈ (update_nvm w ifname Proc.init).calls.drop 2,
        ∃ d, x.resp = some d ∧ word0 d &&& (1 <<< 11) = 0) →
      ∃ p, update_nvm w ifname Proc.init = .ret 0 p ∧ p.calls.length = 6 ∧
        (∀ x ∈ p.calls, x.verb = .SIOCGDRVSPEC ∧ x.req.ifd_data.command = I40E_NVM_READ) ∧
        ∀ name args, exit_status (main w name ['u'] (ifname :: args)) = 0) := by
  refine ⟨?_, ?_, ?_⟩
  · intro x hx hv d hd hb
    rcases update_nvm_calls w ifname with
      ⟨hlen, _, _⟩ | ⟨d1, d2, off, p0, tail, _, _, _, hoff, _, _, hcalls, _, htail⟩
    · rw [List.drop_eq_nil_of_le hlen] at hx
      simp at hx
    · have ho : off < 2 ^ 16 := by rw [hoff]; exact Nat.mod_lt _ (by norm_num)
      have ht : tail = [] ∨ ∃ ifname data r, tail = [csum_call ifname data r] := by
        rcases htail with ⟨h, _⟩ | ⟨h, _⟩ | ⟨l1, p1, r, h, _⟩
        · exact Or.inl h
        · exact Or.inl h
        · exact Or.inr ⟨_, _, _, h⟩
      rw [hcalls] at hx ⊢
      simp only [List.drop_succ_cons, List.drop_zero] at hx
      have hxs := read_mem_loop_seg x _ tail hv ht hx
      have hf := (loop_seg_writes w ifname off ho (List.range 4) range4_lt range4_sorted
        ⟨0, [0]⟩ p0 x d hxs hv hd).1 hb
      obtain ⟨j, _, hlc⟩ := loop_seg_shape w ifname off ho (List.range 4) range4_lt _ _ x hxs
      have hxpos : 0 < x.offset := by rw [hlc.1]; unfold lane_offset; omega
      rw [List.filter_cons_of_neg (by simp), List.filter_cons_of_neg (by simp),
        List.filter_append, hf]
      rcases ht with ht | ⟨n, data, r1, ht⟩
      · rw [ht]; rfl
      · rw [ht, List.filter_cons_of_neg (by simp; omega)]
        rfl
  · exact update_nvm_ret_count w ifname
  · intro hne hall
    rcases update_nvm_calls w ifname with
      ⟨hlen, _, _, _⟩ | ⟨d1, d2, off, p0, tail, _, _, _, hoff, hp0, _, hcalls, _, htail⟩
    · exact absurd (List.drop_eq_nil_of_le hlen) hne
    · rw [hcalls] at hall
      simp only [List.drop_succ_cons, List.drop_zero] at hall
      have hseg : ∀ x ∈ loop_seg w ifname off (List.range 4) ⟨0, [0]⟩ p0,
          ∃ d, x.resp = some d ∧ word0 d &&& (1 <<< 11) = 0 :=
        fun x hx => hall x (List.mem_append_left _ hx)
      -- the loop cannot exit: its last call would have failed
      have hret : ∀ l1 p1,
          update_nvm_loop w ifname off (List.range 4) ⟨0, [0]⟩ p0 = .ret l1 p1 →
          l1.c = 0 ∧ p1.calls.length = 6 ∧
          ∀ x ∈ p1.calls, x.verb = .SIOCGDRVSPEC ∧ x.req.ifd_data.command = I40E_NVM_READ := by
        intro l1 p1 hL
        obtain ⟨_, hcS, hcG, hn⟩ := loop_ret_facts w ifname off (List.range 4) ⟨0, [0]⟩ p0 l1 p1 hL
        have hzero : ((loop_seg w ifname off (List.range 4) ⟨0, [0]⟩ p0).filter
            (fun x => decide (x.verb = .SIOCGDRVSPEC ∧ x.value &&& (1 <<< 11) ≠ 0))) = [] := by
          rw [List.filter_eq_nil_iff]
          intro x hx
          obtain ⟨d, hd, hb⟩ := hseg x hx
          have hval : x.value = word0 d := by simp [Call.value, hd]
          simp only [decide_eq_true_eq, not_and, not_not]
          intro _
          rw [hval]; exact hb
        have hc0 : l1.c = 0 := by rw [hcG, hzero]; rfl
        have hS : ((loop_seg w ifname off (List.range 4) ⟨0, [0]⟩ p0).filter
            (fun x => decide (x.verb = .SIOCSDRVSPEC))) = [] := by
          apply List.eq_nil_of_length_eq_zero
          rw [hc0] at hcS
          simpa using hcS.symm
        have hallG : ∀ x ∈ loop_seg w ifname off (List.range 4) ⟨0, [0]⟩ p0,
            x.verb = .SIOCGDRVSPEC := by
          intro x hx
          have := (List.filter_eq_nil_iff.mp hS) x hx
          cases hxv : x.verb with
          | SIOCGDRVSPEC => rfl
          | SIOCSDRVSPEC => simp [hxv] at this
        have hlen : (loop_seg w ifname off (List.range 4) ⟨0, [0]⟩ p0).length = 4 := by
          have hfe : (loop_seg w ifname off (List.range 4) ⟨0, [0]⟩ p0).filter
              (fun x => decide (x.verb = .SIOCGDRVSPEC))
              = loop_seg w ifname off (List.range 4) ⟨0, [0]⟩ p0 := by
            rw [List.filter_eq_self]
            intro x hx
            simp [hallG x hx]
          rw [hfe] at hn
          simpa using hn
        have hpc : p1.calls = p0.calls ++ loop_seg w ifname off (List.range 4) ⟨0, [0]⟩ p0 := by
          have := loop_calls_eq w ifname off (List.range 4) ⟨0, [0]⟩ p0
          rw [hL] at this
          exact this
        have hp0c : p0.calls = [⟨.SIOCGDRVSPEC, emp_sr_req ifname, some d1⟩,
            ⟨.SIOCGDRVSPEC, ptr_req ifname d1, some d2⟩] := by rw [hp0]
        refine ⟨hc0, by rw [hpc, hp0c]; simp [hlen], ?_⟩
        intro x hx
        rw [hpc, hp0c] at hx
        rcases List.mem_append.mp hx with hx | hx
        · simp only [List.mem_cons, List.mem_singleton, List.not_mem_nil, or_false] at hx
          rcases hx with hx | hx <;> rw [hx] <;> exact ⟨rfl, rfl⟩
        · refine ⟨hallG x hx, ?_⟩
          have ho : off < 2 ^ 16 := by rw [hoff]; exact Nat.mod_lt _ (by norm_num)
          obtain ⟨j, _, hlc⟩ := loop_seg_shape w ifname off ho (List.range 4) range4_lt _ _ x hx
          rcases hlc.2.2.2.2 with h | h
          · exact h.2
          · rw [hallG x hx] at h; cases h.1
      have hmain : ∀ p, update_nvm w ifname Proc.init = .ret 0 p →
          ∀ name args, exit_status (main w name ['u'] (ifname :: args)) = 0 := by
        intro p hR name args
        simp [main, getopt_loop, hR, exit_status]
      rcases htail with ⟨_, site, code, p1, hL, _⟩ | ⟨_, l1, p1, hL, _, hR⟩ |
        ⟨l1, p1, r, _, hL, hz, _⟩
      · exfalso
        obtain ⟨pre, x, hs2, hx, _⟩ :=
          loop_exit_facts w ifname off (List.range 4) ⟨0, [0]⟩ p0 site code p1 hL
        obtain ⟨d, hd, _⟩ := hseg x (by rw [hs2]; simp)
        rw [hx] at hd; cases hd
      · obtain ⟨_, h6, hG⟩ := hret l1 p1 hL
        exact ⟨p1, hR, h6, hG, hmain p1 hR⟩
      · exact absurd (hret l1 p1 hL).1 hz

/-- C4 at the end-to-end scenario C: all four lanes read values with bit 11 clear. -/
theorem update_nvm_skips_clear_lanes_witness :
    (update_nvm (scripted 3 [some [0x0010], some [0x0005], some [0x0000], some [0x1234],
        some [0x0000], some [0xF7FF]]) ['i', 'x', 'l', '0'] Proc.init).calls.filter
      (fun c => decide (c.verb = .SIOCSDRVSPEC ∧ c.offset = 0x6C)) = [] ∧
    ∃ p, update_nvm (scripted 3 [some [0x0010], some [0x0005], some [0x0000], some [0x1234],
        some [0x0000], some [0xF7FF]]) ['i', 'x', 'l', '0'] Proc.init = .ret 0 p ∧
      p.calls.length = 6 ∧
      (∀ x ∈ p.calls, x.verb = .SIOCGDRVSPEC ∧ x.req.ifd_data.command = I40E_NVM_READ) ∧
      ∀ name args, exit_status (main (scripted 3 [some [0x0010], some [0x0005], some [0x0000],
        some [0x1234], some [0x0000], some [0xF7FF]]) name ['u']
          (['i', 'x', 'l', '0'] :: args)) = 0 :=
  ⟨(update_nvm_skips_clear_lanes (scripted 3 [some [0x0010], some [0x0005], some [0x0000],
      some [0x1234], some [0x0000], some [0xF7FF]]) ['i', 'x', 'l', '0']).1
      (lane_read_call ['i', 'x', 'l', '0'] 0x2E 0 [0] (some [0x0000])) (by decide) rfl
      [0x0000] rfl (by decide),
   (update_nvm_skips_clear_lanes (scripted 3 [some [0x0010], some [0x0005], some [0x0000],
      some [0x1234], some [0x0000], some [0xF7FF]]) ['i', 'x', 'l', '0']).2.2
      (by decide)
      (by
        intro x hx
        have h : (update_nvm (scripted 3 [some [0x0010], some [0x0005], some [0x0000],
            some [0x1234], some [0x0000], some [0xF7FF]]) ['i', 'x', 'l', '0']
              Proc.init).calls.drop 2
            = [lane_read_call ['i', 'x', 'l', '0'] 0x2E 0 [0] (some [0x0000]),
               lane_read_call ['i', 'x', 'l', '0'] 0x2E 1 [0x0000] (some [0x1234]),
               lane_read_call ['i', 'x', 'l', '0'] 0x2E 2 [0x1234] (some [0x0000]),
               lane_read_call ['i', 'x', 'l', '0'] 0x2E 3 [0x0000] (some [0xF7FF])] := by
          decide
        rw [h] at hx
        simp only [List.mem_cons, List.mem_singleton, List.not_mem_nil, or_false] at hx
        rcases hx with hx | hx | hx | hx <;> rw [hx] <;> exact ⟨_, rfl, by decide⟩)⟩

theorem csum_call_is_csum (ifname : List Char) (data : List Nat) (r : Option (List Nat)) :
    is_csum (csum_call ifname data r) = true := by
  simp [is_csum, csum_call, upd_req, csum_nvm, Call.offset, set_word0, word0, u16, u32,
    I40E_NVM_WRITE, I40E_NVM_SA, I40E_NVM_SNT, I40E_NVM_LCB, I40E_NVM_CSUM,
    I40E_NVM_TRANS_SHIFT, sizeof_uint16_t]

theorem lane_call_not_csum (offset i : Nat) (x : Call) (h : is_lane_call offset i x) :
    is_csum x = false := by
  have hc := h.2.1
  simp [is_csum, hc]

theorem show_call_not_csum (x : Call) (h : x.verb = .SIOCGDRVSPEC) : is_csum x = false := by
  simp [is_csum, h]

/-- C5: in a run of `update_nvm` in which every ioctl call succeeds, the checksum-recompute
request is issued exactly once when the changed-count (the number of lane reads that
answered a value with bit 11 set) is positive, and not at all when it is 0; when issued it
is the last call of the run. The count `c` that the function ends with is that number. -/
theorem update_nvm_checksum_iff (w : World) (ifname : List Char)
    (hok : ∀ x ∈ (update_nvm w ifname Proc.init).calls, x.resp ≠ none) :
    ((∃ x ∈ (update_nvm w ifname Proc.init).calls, is_csum x = true) ↔
      0 < changed_count (update_nvm w ifname Proc.init).calls) ∧
    ((update_nvm w ifname Proc.init).calls.filter is_csum).length
      = (if 0 < changed_count (update_nvm w ifname Proc.init).calls then 1 else 0) ∧
    (∀ x ∈ (update_nvm w ifname Proc.init).calls, is_csum x = true →
      (update_nvm w ifname Proc.init).calls.getLast? = some x) ∧
    (∀ c p, update_nvm w ifname Proc.init = .ret c p → c = changed_count p.calls) := by
  -- it is enough to know the list of checksum requests of the run
  have key : ((update_nvm w ifname Proc.init).calls.filter is_csum = [] ∧
        changed_count (update_nvm w ifname Proc.init).calls = 0) ∨
      (∃ y pre, (update_nvm w ifname Proc.init).calls = pre ++ [y] ∧ is_csum y = true ∧
        pre.filter is_csum = [] ∧
        0 < changed_count (update_nvm w ifname Proc.init).calls) := by
    rcases update_nvm_calls w ifname with
      ⟨hlen, hcalls, _, _⟩ | ⟨d1, d2, off, p0, tail, _, _, _, hoff, _, _, hcalls, _, htail⟩
    · left
      constructor
      · rw [List.filter_eq_nil_iff]
        intro x hx
        rw [hcalls] at hx
        have : x.verb = .SIOCGDRVSPEC := by
          revert x
          unfold show_info
          simp only [Proc.init, Proc.call, Proc.print]
          repeat' split
          all_goals simp [Res.calls, Res.proc]
        simp [show_call_not_csum x this]
      · unfold changed_count
        rw [List.drop_eq_nil_of_le hlen]
        rfl
    · have ho : off < 2 ^ 16 := by rw [hoff]; exact Nat.mod_lt _ (by norm_num)
      have hnc : (loop_seg w ifname off (List.range 4) ⟨0, [0]⟩ p0).filter is_csum = [] := by
        rw [List.filter_eq_nil_iff]
        intro x hx
        obtain ⟨j, _, hlc⟩ := loop_seg_shape w ifname off ho (List.range 4) range4_lt _ _ x hx
        simp [lane_call_not_csum off j x hlc]
      rcases htail with ⟨_, site, code, p1, hL, _⟩ | ⟨ht, l1, p1, hL, hz, _⟩ |
        ⟨l1, p1, r, ht, hL, hz, _⟩
      · exfalso
        obtain ⟨pre, x, hs2, hx, _⟩ :=
          loop_exit_facts w ifname off (List.range 4) ⟨0, [0]⟩ p0 site code p1 hL
        refine hok x ?_ hx
        rw [hcalls, hs2]; simp
      · left
        have hcG := (loop_ret_facts w ifname off (List.range 4) ⟨0, [0]⟩ p0 l1 p1 hL).2.2.1
        constructor
        · rw [hcalls, ht, List.append_nil, List.filter_cons_of_neg (by simp [is_csum]),
            List.filter_cons_of_neg (by simp [is_csum]), hnc]
        · unfold changed_count
          rw [hcalls, ht, List.append_nil]
          simp only [List.drop_succ_cons, List.drop_zero]
          rw [hz] at hcG
          simpa using hcG.symm
      · right
        have hcG := (loop_ret_facts w ifname off (List.range 4) ⟨0, [0]⟩ p0 l1 p1 hL).2.2.1
        refine ⟨csum_call ifname l1.data r,
          (⟨.SIOCGDRVSPEC, emp_sr_req ifname, some d1⟩ : Call)
            :: (⟨.SIOCGDRVSPEC, ptr_req ifname d1, some d2⟩ : Call)
            :: loop_seg w ifname off (List.range 4) ⟨0, [0]⟩ p0, ?_, csum_call_is_csum _ _ _,
          ?_, ?_⟩
        · rw [hcalls, ht]; simp
        · rw [List.filter_cons_of_neg (by simp [is_csum]),
            List.filter_cons_of_neg (by simp [is_csum]), hnc]
        · unfold changed_count
          rw [hcalls, ht]
          simp only [List.drop_succ_cons, List.drop_zero]
          rw [List.filter_append, List.filter_cons_of_neg (by simp), List.filter_nil,
            List.append_nil]
          have : l1.c = ((loop_seg w ifname off (List.range 4) ⟨0, [0]⟩ p0).filter
              (fun x => decide (x.verb = .SIOCGDRVSPEC ∧ x.value &&& (1 <<< 11) ≠ 0))).length := by
            simpa using hcG
          omega
  refine ⟨?_, ?_, ?_, ?_⟩
  · rcases key with ⟨hnil, hz⟩ | ⟨y, pre, hcalls, hy, _, hpos⟩
    · rw [hz]
      constructor
      · rintro ⟨x, hx, hc⟩
        have := (List.filter_eq_nil_iff.mp hnil) x hx
        exact absurd hc this
      · intro h; exact absurd h (by decide)
    · exact ⟨fun _ => hpos, fun _ => ⟨y, by rw [hcalls]; simp, hy⟩⟩
  · rcases key with ⟨hnil, hz⟩ | ⟨y, pre, hcalls, hy, hpre, hpos⟩
    · rw [hnil, hz]; rfl
    · rw [if_pos hpos, hcalls, List.filter_append, hpre, List.filter_cons_of_pos hy]
      rfl
  · intro x hx hc
    rcases key with ⟨hnil, _⟩ | ⟨y, pre, hcalls, hy, hpre, _⟩
    · exact absurd hc ((List.filter_eq_nil_iff.mp hnil) x hx)
    · rw [hcalls] at hx ⊢
      rcases List.mem_append.mp hx with hx | hx
      · exact absurd hc ((List.filter_eq_nil_iff.mp hpre) x hx)
      · simp only [List.mem_singleton] at hx
        rw [hx]; simp
  · intro c p hR
    exact update_nvm_ret_count w ifname c p hR

/-- C5 at two concrete runs: with lane 0 reading `0x0800` the changed-count is 1 and one
checksum request is issued; with all four lanes clear the count is 0 and none is. -/
theorem update_nvm_checksum_iff_witness :
    (changed_count (update_nvm (scripted 3 [some [0x0010], some [0x0005], some [0x0800],
        some [0x0000], some [0], some [0], some [0], some [0]]) ['i', 'x', 'l', '0']
          Proc.init).calls = 1 ∧
      ((update_nvm (scripted 3 [some [0x0010], some [0x0005], some [0x0800],
        some [0x0000], some [0], some [0], some [0], some [0]]) ['i', 'x', 'l', '0']
          Proc.init).calls.filter is_csum).length = 1) ∧
    (changed_count (update_nvm (scripted 3 [some [0x0010], some [0x0005], some [0x0000],
        some [0x1234], some [0x0000], some [0xF7FF]]) ['i', 'x', 'l', '0']
          Proc.init).calls = 0 ∧
      ((update_nvm (scripted 3 [some [0x0010], some [0x0005], some [0x0000],
        some [0x1234], some [0x0000], some [0xF7FF]]) ['i', 'x', 'l', '0']
          Proc.init).calls.filter is_csum).length = 0) := by
  refine ⟨⟨by decide, ?_⟩, ⟨by decide, ?_⟩⟩
  · rw [(update_nvm_checksum_iff (scripted 3 [some [0x0010], some [0x0005], some [0x0800],
        some [0x0000], some [0], some [0], some [0], some [0]]) ['i', 'x', 'l', '0']
          (by decide)).2.1]
    decide
  · rw [(update_nvm_checksum_iff (scripted 3 [some [0x0010], some [0x0005], some [0x0000],
        some [0x1234], some [0x0000], some [0xF7FF]]) ['i', 'x', 'l', '0']
          (by decide)).2.1]
    decide

theorem ptr_offset_no_wrap (d1 : List Nat) (hb : word0 d1 &&& 0x8000 = 0) :
    u16 (word0 d1 + PHY_CAP_OFFSET) = word0 d1 + 0x19 := by
  have hlt := lt_of_bit15_clear _ (word0_lt d1) hb
  unfold u16 PHY_CAP_OFFSET
  exact Nat.mod_eq_of_lt (by omega)

/-- The calls of a run of `show_info`, in either mode: a prefix of the chain of reads, each
made only after the one before succeeded (and, for the second, after the 4KiB check). -/
theorem show_info_calls_cases (w : World) (ifname : List Char) (offp : Bool) :
    (show_info w ifname offp Proc.init).calls = [] ∨
    (∃ r1, (show_info w ifname offp Proc.init).calls
      = [⟨.SIOCGDRVSPEC, emp_sr_req ifname, r1⟩]) ∨
    (∃ d1 r2, word0 d1 &&& 0x8000 = 0 ∧ (show_info w ifname offp Proc.init).calls
      = [⟨.SIOCGDRVSPEC, emp_sr_req ifname, some d1⟩, ⟨.SIOCGDRVSPEC, ptr_req ifname d1, r2⟩]) ∨
    (∃ d1 d2 r3, offp = false ∧ word0 d1 &&& 0x8000 = 0 ∧
      (show_info w ifname offp Proc.init).calls
        = [⟨.SIOCGDRVSPEC, emp_sr_req ifname, some d1⟩,
           ⟨.SIOCGDRVSPEC, ptr_req ifname d1, some d2⟩,
           ⟨.SIOCGDRVSPEC, cap_req ifname d1 d2, r3⟩]) := by
  by_cases hc : w.calloc 0 = true
  swap
  · left; simp [show_info, hc, Res.calls, Res.proc, Proc.init]
  by_cases hs : w.socket = -1
  · left; simp [show_info, hc, hs, Res.calls, Res.proc, Proc.init]
  right
  cases h1 : w.ioctl [] .SIOCGDRVSPEC (emp_sr_req ifname) with
  | none =>
    left
    refine ⟨none, ?_⟩
    unfold emp_sr_req at h1
    simp [show_info, hc, hs, Proc.init, Proc.call, h1, Res.calls, Res.proc, emp_sr_req]
  | some d1 =>
    by_cases hb : word0 d1 &&& 0x8000 = 0
    swap
    · left
      refine ⟨some d1, ?_⟩
      unfold emp_sr_req at h1
      cases offp <;>
        simp [show_info, hc, hs, Proc.init, Proc.call, Proc.print, h1, hb, Res.calls, Res.proc,
          emp_sr_req]
    right
    have hu := ptr_offset_no_wrap d1 hb
    cases h2 : w.ioctl [⟨.SIOCGDRVSPEC, emp_sr_req ifname, some d1⟩] .SIOCGDRVSPEC
        (ptr_req ifname d1) with
    | none =>
      left
      refine ⟨d1, none, hb, ?_⟩
      unfold emp_sr_req at h1 h2
      unfold ptr_req at h2
      cases offp <;>
      · simp only [show_info, hc, hs, Proc.init, Proc.call, Proc.print, h1, hb, hu,
          sizeof_uint16_t, List.nil_append]
        simp [h2, emp_sr_req, ptr_req, Res.calls, Res.proc]
    | some d2 =>
      cases offp with
      | true =>
        left
        refine ⟨d1, some d2, hb, ?_⟩
        unfold emp_sr_req at h1 h2
        unfold ptr_req at h2
        simp only [show_info, hc, hs, Proc.init, Proc.call, Proc.print, h1, hb, hu,
          sizeof_uint16_t, List.nil_append]
        simp [h2, emp_sr_req, ptr_req, Res.calls, Res.proc]
      | false =>
        right
        cases h3 : w.ioctl [⟨.SIOCGDRVSPEC, emp_sr_req ifname, some d1⟩,
            ⟨.SIOCGDRVSPEC, ptr_req ifname d1, some d2⟩] .SIOCGDRVSPEC (cap_req ifname d1 d2) with
        | none =>
          refine ⟨d1, d2, none, rfl, hb, ?_⟩
          unfold emp_sr_req at h1 h2 h3
          unfold ptr_req at h2 h3
          unfold cap_req at h3
          simp only [sizeof_uint16_t, Nat.reducePow] at h3
          simp only [show_info, hc, hs, Proc.init, Proc.call, Proc.print, h1, hb, hu,
            sizeof_uint16_t, List.nil_append]
          simp [h2, h3, u16, emp_sr_req, ptr_req, cap_req, Res.calls, Res.proc, sizeof_uint16_t]
        | some d3 =>
          refine ⟨d1, d2, some d3, rfl, hb, ?_⟩
          unfold emp_sr_req at h1 h2 h3
          unfold ptr_req at h2 h3
          unfold cap_req at h3
          simp only [sizeof_uint16_t, Nat.reducePow] at h3
          simp only [show_info, hc, hs, Proc.init, Proc.call, Proc.print, h1, hb, hu,
            sizeof_uint16_t, List.nil_append]
          simp [h2, h3, u16, emp_sr_req, ptr_req, cap_req, Res.calls, Res.proc, sizeof_uint16_t]

theorem emp_sr_req_offset (ifname : List Char) :
    (emp_sr_req ifname).ifd_data.offset = 2 * 0x48 := rfl

theorem ptr_req_offset (ifname : List Char) (d1 : List Nat) :
    (ptr_req ifname d1).ifd_data.offset = 2 * (word0 d1 + 0x19) := by
  have := word0_lt d1
  simp only [ptr_req, show_req, read_nvm, u32, sizeof_uint16_t]
  omega

theorem cap_req_offset (ifname : List Char) (d1 d2 : List Nat) :
    (cap_req ifname d1 d2).ifd_data.offset = 2 * ((word0 d1 + 0x19 + word0 d2) % 2 ^ 16) := by
  simp only [cap_req, show_req, read_nvm, u32, sizeof_uint16_t]
  omega

/-- The reads of the lane loop address the lanes in order. -/
theorem loop_seg_reads_in_order (w : World) (ifname : List Char) (offset : Nat)
    (ho : offset < 2 ^ 16) (lanes : List Nat) (hl : ∀ j ∈ lanes, j < 4) :
    ∀ (l : Loop) (p : Proc),
      ((loop_seg w ifname offset lanes l p).filter
        (fun x => decide (x.verb = .SIOCGDRVSPEC))).map Call.offset
        <+: lanes.map (fun i => 2 * (offset + i * 0x0c + 0x08)) := by
  induction lanes with
  | nil => intro l p; simp [loop_seg_nil]
  | cons i rest ih =>
    intro l p
    have hi : i < 4 := hl i (List.mem_cons_self _ _)
    have ih1 := ih (fun j hj => hl j (List.mem_cons_of_mem _ hj))
    have hro : ∀ buf r, (lane_read_call ifname offset i buf r).offset
        = 2 * (offset + i * 0x0c + 0x08) :=
      fun buf r => lane_read_call_offset ifname offset i buf r ho hi
    rcases loop_cons_cases w ifname offset i rest l p with
      ⟨p1, _, hsg⟩ | ⟨d, p1, _, _, hsg⟩ | ⟨d, p1, _, _, hsg⟩ | ⟨d, d1, p1, _, _, hsg⟩
    · rw [hsg, List.filter_cons_of_pos (by simp)]
      simp only [List.filter_nil, List.map_cons, List.map_nil, hro]
      exact ⟨_, rfl⟩
    · rw [hsg, List.filter_cons_of_pos (by simp)]
      simp only [List.map_cons, hro]
      obtain ⟨t, ht⟩ := ih1 _ _
      exact ⟨t, by rw [List.cons_append, ht]⟩
    · rw [hsg, List.filter_cons_of_pos (by simp), List.filter_cons_of_neg (by simp)]
      simp only [List.filter_nil, List.map_cons, List.map_nil, hro]
      exact ⟨_, rfl⟩
    · rw [hsg, List.filter_cons_of_pos (by simp), List.filter_cons_of_neg (by simp)]
      simp only [List.map_cons, hro]
      obtain ⟨t, ht⟩ := ih1 _ _
      exact ⟨t, by rw [List.cons_append, ht]⟩

/-- C6: the offset field of every request is exactly twice the word index addressed, with
no truncation. In dump mode the offsets are, in order, those of the words `0x48`,
`p1 + 0x19` and the resolved offset `(p1 + 0x19 + p2) mod 2^16`; in patch mode those of
`0x48` and `p1 + 0x19`, then the reads of the lanes `i = 0..3` in order at
`resolved + i * 0x0c + 0x08`, each write being at one of those lane words or, for the
checksum request, at word 0. The lists are those of a complete run; a run that ends early
issues a prefix. -/
theorem request_offset_is_twice_word_index (w : World) (ifname : List Char) :
    ((show_info w ifname false Proc.init).calls.map Call.offset <+:
      [2 * 0x48,
       2 * (nth_value (show_info w ifname false Proc.init).calls 0 + 0x19),
       2 * resolved_offset (show_info w ifname false Proc.init).calls]) ∧
    (((update_nvm w ifname Proc.init).calls.take 2).map Call.offset <+:
      [2 * 0x48, 2 * (nth_value (update_nvm w ifname Proc.init).calls 0 + 0x19)]) ∧
    ((((update_nvm w ifname Proc.init).calls.drop 2).filter
        (fun x => decide (x.verb = .SIOCGDRVSPEC))).map Call.offset <+:
      (List.range 4).map (fun i =>
        2 * (resolved_offset (update_nvm w ifname Proc.init).calls + i * 0x0c + 0x08))) ∧
    (∀ x ∈ (update_nvm w ifname Proc.init).calls.drop 2, x.verb = .SIOCSDRVSPEC →
      (∃ i, i < 4 ∧
        x.offset = 2 * (resolved_offset (update_nvm w ifname Proc.init).calls + i * 0x0c + 0x08))
      ∨ (is_csum x = true ∧ x.offset = 2 * 0)) := by
  have hshow : ∀ offp, ((show_info w ifname offp Proc.init).calls.map Call.offset <+:
      [2 * 0x48,
       2 * (nth_value (show_info w ifname offp Proc.init).calls 0 + 0x19),
       2 * resolved_offset (show_info w ifname offp Proc.init).calls]) := by
    intro offp
    rcases show_info_calls_cases w ifname offp with
      h | ⟨r1, h⟩ | ⟨d1, r2, _, h⟩ | ⟨d1, d2, r3, _, _, h⟩
    · rw [h]; exact ⟨_, rfl⟩
    · rw [h]; exact ⟨_, rfl⟩
    · rw [h]
      simp only [List.map_cons, List.map_nil, Call.offset, emp_sr_req_offset, ptr_req_offset]
      exact ⟨_, rfl⟩
    · rw [h]
      simp only [List.map_cons, List.map_nil, Call.offset, emp_sr_req_offset, ptr_req_offset,
        cap_req_offset]
      exact ⟨[], rfl⟩
  refine ⟨hshow false, ?_, ?_, ?_⟩
  · rcases update_nvm_calls w ifname with
      ⟨hlen, hcalls, _, _⟩ | ⟨d1, d2, off, p0, tail, _, _, _, hoff, _, _, hcalls, _, htail⟩
    · rw [List.take_of_length_le hlen, hcalls]
      rcases show_info_calls_cases w ifname true with
        h | ⟨r1, h⟩ | ⟨d1, r2, _, h⟩ | ⟨d1, d2, r3, hf, _, _⟩
      · rw [h]; exact ⟨_, rfl⟩
      · rw [h]; exact ⟨_, rfl⟩
      · rw [h]
        simp only [List.map_cons, List.map_nil, Call.offset, emp_sr_req_offset, ptr_req_offset]
        exact ⟨[], rfl⟩
      · cases hf
    · rw [hcalls]
      simp only [List.take_succ_cons, List.take_zero, List.map_cons, List.map_nil, Call.offset,
        emp_sr_req_offset, ptr_req_offset]
      exact ⟨[], rfl⟩
  · rcases update_nvm_calls w ifname with
      ⟨hlen, _, _, _⟩ | ⟨d1, d2, off, p0, tail, _, _, _, hoff, _, _, hcalls, hres, htail⟩
    · rw [List.drop_eq_nil_of_le hlen]; exact ⟨_, rfl⟩
    · have ho : off < 2 ^ 16 := by rw [hoff]; exact Nat.mod_lt _ (by norm_num)
      have ht : tail.filter (fun x => decide (x.verb = .SIOCGDRVSPEC)) = [] := by
        rcases htail with ⟨h, _⟩ | ⟨h, _⟩ | ⟨l1, p1, r, h, _⟩ <;> rw [h] <;> rfl
      rw [hres, hcalls]
      simp only [List.drop_succ_cons, List.drop_zero]
      rw [List.filter_append, ht, List.append_nil]
      exact loop_seg_reads_in_order w ifname off ho (List.range 4) range4_lt _ _
  · intro x hx hv
    rcases update_nvm_calls w ifname with
      ⟨hlen, _, _, _⟩ | ⟨d1, d2, off, p0, tail, _, _, _, hoff, _, _, hcalls, hres, htail⟩
    · rw [List.drop_eq_nil_of_le hlen] at hx; simp at hx
    · have ho : off < 2 ^ 16 := by rw [hoff]; exact Nat.mod_lt _ (by norm_num)
      rw [hres]
      rw [hcalls] at hx
      simp only [List.drop_succ_cons, List.drop_zero] at hx
      rcases List.mem_append.mp hx with hx | hx
      · left
        obtain ⟨j, hj, hlc⟩ := loop_seg_shape w ifname off ho (List.range 4) range4_lt _ _ x hx
        exact ⟨j, range4_lt j hj, hlc.1⟩
      · right
        rcases htail with ⟨h, _⟩ | ⟨h, _⟩ | ⟨l1, p1, r, h, _⟩
        · rw [h] at hx; simp at hx
        · rw [h] at hx; simp at hx
        · rw [h] at hx
          simp only [List.mem_singleton] at hx
          rw [hx]
          exact ⟨csum_call_is_csum _ _ _, rfl⟩

/-- Every call of `show_info` is a read through `SIOCGDRVSPEC` with transaction flags `SA`,
made with the length of the buffer that `show_info` allocated. -/
theorem show_info_call_fields (w : World) (ifname : List Char) (offp : Bool) :
    ∀ x ∈ (show_info w ifname offp Proc.init).calls,
      x.verb = .SIOCGDRVSPEC ∧ x.req.ifd_data.command = I40E_NVM_READ ∧
      x.req.ifd_data.config = 0x300 ∧
      x.req.ifd_len = sizeof_i40e_nvm_access + PHY_CAP_SIZE * sizeof_uint16_t ∧
      (x.req.ifd_data.data_size = 2 ∨ x.req.ifd_data.data_size = 26) := by
  intro x hx
  rcases show_info_calls_cases w ifname offp with
    h | ⟨r1, h⟩ | ⟨d1, r2, _, h⟩ | ⟨d1, d2, r3, _, _, h⟩
  · rw [h] at hx; simp at hx
  · rw [h] at hx
    simp only [List.mem_singleton] at hx
    rw [hx]; exact ⟨rfl, rfl, rfl, rfl, Or.inl rfl⟩
  · rw [h] at hx
    simp only [List.mem_cons, List.mem_singleton, List.not_mem_nil, or_false] at hx
    rcases hx with hx | hx <;> rw [hx] <;> exact ⟨rfl, rfl, rfl, rfl, Or.inl rfl⟩
  · rw [h] at hx
    simp only [List.mem_cons, List.mem_singleton, List.not_mem_nil, or_false] at hx
    rcases hx with hx | hx | hx
    · rw [hx]; exact ⟨rfl, rfl, rfl, rfl, Or.inl rfl⟩
    · rw [hx]; exact ⟨rfl, rfl, rfl, rfl, Or.inl rfl⟩
    · rw [hx]; exact ⟨rfl, rfl, rfl, rfl, Or.inr rfl⟩

theorem show_info_calls_length (w : World) (ifname : List Char) (offp : Bool) :
    (show_info w ifname offp Proc.init).calls.length ≤ 3 := by
  rcases show_info_calls_cases w ifname offp with
    h | ⟨r1, h⟩ | ⟨d1, r2, _, h⟩ | ⟨d1, d2, r3, _, _, h⟩ <;> rw [h] <;> simp

/-- C7: in dump mode, when the first pointer has bit 15 clear and each of the three ioctl
calls succeeds, `show_info` returns 0 after exactly three calls, all of them reads
(`SIOCGDRVSPEC`, command Read, config `SA << 8 = 0x300`), the third of 26 bytes (13 words)
at the resolved word offset. Whatever the device does, dump mode issues at most three calls
and every one of them is such a read: no write is ever issued. -/
theorem dump_mode_reads_only (w : World) (ifname : List Char) (d1 d2 d3 : List Nat)
    (hc : w.calloc 0 = true) (hs : w.socket ≠ -1)
    (h1 : w.ioctl [] .SIOCGDRVSPEC (emp_sr_req ifname) = some d1)
    (hb : word0 d1 &&& 0x8000 = 0)
    (h2 : w.ioctl [⟨.SIOCGDRVSPEC, emp_sr_req ifname, some d1⟩] .SIOCGDRVSPEC
      (ptr_req ifname d1) = some d2)
    (h3 : w.ioctl [⟨.SIOCGDRVSPEC, emp_sr_req ifname, some d1⟩,
        ⟨.SIOCGDRVSPEC, ptr_req ifname d1, some d2⟩] .SIOCGDRVSPEC
      (cap_req ifname d1 d2) = some d3) :
    (∃ p, show_info w ifname false Proc.init = .ret (0, none) p ∧
      p.calls = [⟨.SIOCGDRVSPEC, emp_sr_req ifname, some d1⟩,
                 ⟨.SIOCGDRVSPEC, ptr_req ifname d1, some d2⟩,
                 ⟨.SIOCGDRVSPEC, cap_req ifname d1 d2, some d3⟩]) ∧
    (∀ r ∈ [emp_sr_req ifname, ptr_req ifname d1, cap_req ifname d1 d2],
      r.ifd_data.command = I40E_NVM_READ ∧
      r.ifd_data.config = I40E_NVM_SA <<< I40E_NVM_TRANS_SHIFT ∧ r.ifd_data.config = 0x300) ∧
    (cap_req ifname d1 d2).ifd_data.data_size = 13 * 2 ∧
    (cap_req ifname d1 d2).ifd_data.offset = 2 * ((word0 d1 + 0x19 + word0 d2) % 2 ^ 16) ∧
    (∀ (w1 : World) (n1 : List Char),
      (show_info w1 n1 false Proc.init).calls.length ≤ 3 ∧
      ∀ x ∈ (show_info w1 n1 false Proc.init).calls,
        x.verb = .SIOCGDRVSPEC ∧ x.req.ifd_data.command = I40E_NVM_READ ∧
        x.req.ifd_data.config = 0x300) := by
  refine ⟨?_, ?_, rfl, cap_req_offset ifname d1 d2, ?_⟩
  · have hu := ptr_offset_no_wrap d1 hb
    unfold emp_sr_req at h1 h2 h3
    unfold ptr_req at h2 h3
    unfold cap_req at h3
    simp only [sizeof_uint16_t, Nat.reducePow] at h3
    simp only [show_info, hc, hs, Proc.init, Proc.call, Proc.print, h1, hb, hu,
      sizeof_uint16_t, List.nil_append]
    simp [h2, h3, u16, emp_sr_req, ptr_req, cap_req, sizeof_uint16_t]
  · intro r hr
    simp only [List.mem_cons, List.mem_singleton, List.not_mem_nil, or_false] at hr
    rcases hr with hr | hr | hr <;> rw [hr] <;> exact ⟨rfl, rfl, rfl⟩
  · intro w1 n1
    refine ⟨show_info_calls_length w1 n1 false, ?_⟩
    intro x hx
    obtain ⟨h1, h2, h3, _⟩ := show_info_call_fields w1 n1 false x hx
    exact ⟨h1, h2, h3⟩

/-- C7 at a concrete device: `p1 = 0x0010`, `p2 = 0x0005`, and a 13-word block. -/
theorem dump_mode_reads_only_witness :
    ∃ p, show_info (scripted 3 [some [0x0010], some [0x0005],
        some [0x000b, 1, 2, 3, 4, 5, 6, 7, 0x0800, 9, 0x0a1e, 11, 12]]) ['i', 'x', 'l', '0']
        false Proc.init = .ret (0, none) p ∧
      p.calls = [⟨.SIOCGDRVSPEC, emp_sr_req ['i', 'x', 'l', '0'], some [0x0010]⟩,
        ⟨.SIOCGDRVSPEC, ptr_req ['i', 'x', 'l', '0'] [0x0010], some [0x0005]⟩,
        ⟨.SIOCGDRVSPEC, cap_req ['i', 'x', 'l', '0'] [0x0010] [0x0005],
          some [0x000b, 1, 2, 3, 4, 5, 6, 7, 0x0800, 9, 0x0a1e, 11, 12]⟩] :=
  (dump_mode_reads_only (scripted 3 [some [0x0010], some [0x0005],
      some [0x000b, 1, 2, 3, 4, 5, 6, 7, 0x0800, 9, 0x0a1e, 11, 12]]) ['i', 'x', 'l', '0']
    [0x0010] [0x0005] [0x000b, 1, 2, 3, 4, 5, 6, 7, 0x0800, 9, 0x0a1e, 11, 12]
    rfl (by decide) rfl (by decide) rfl rfl).1

/-- C9, as stated, fails: in a dump run the first request is handed to the channel with
`ifd_len = 46` while its `data_size` is 2, and in a patch run the lane requests have
`ifd_len = 22` with `data_size = 2`; neither is `16 + data_size = 18`. -/
theorem ifd_len_not_header_plus_data_size :
    ((show_info (scripted 3 [some [0x0010], some [0x0005],
        some [0x000b, 1, 2, 3, 4, 5, 6, 7, 0x0800, 9, 0x0a1e, 11, 12]]) ['i', 'x', 'l', '0']
        false Proc.init).calls.map (fun x => (x.req.ifd_len, x.req.ifd_data.data_size))
      = [(46, 2), (46, 2), (46, 26)]) ∧
    ((update_nvm (scripted 3 [some [0x0010], some [0x0005], some [0x0800], some [0x0000],
        some [0], some [0], some [0], some [0]]) ['i', 'x', 'l', '0']
        Proc.init).calls.map (fun x => (x.req.ifd_len, x.req.ifd_data.data_size))
      = [(46, 2), (46, 2), (22, 2), (22, 2), (22, 2), (22, 2), (22, 2), (22, 2)]) ∧
    ¬ (∀ x ∈ (show_info (scripted 3 [some [0x0010], some [0x0005],
        some [0x000b, 1, 2, 3, 4, 5, 6, 7, 0x0800, 9, 0x0a1e, 11, 12]]) ['i', 'x', 'l', '0']
        false Proc.init).calls, x.req.ifd_len = 16 + x.req.ifd_data.data_size) := by
  decide

/-- C9, amended: every request is handed to the channel with `ifd_len` equal to the size of
the buffer that the calling function allocated, `sizeof(struct i40e_nvm_access)` (20) plus
the payload capacity: 26 bytes in `show_info` (so 46, in dump mode and for the two resolver
reads of patch mode) and 2 bytes in `update_nvm` (so 22), whatever the `data_size` of the
request, which is 2 or 26 and never exceeds the capacity. -/
theorem ifd_len_is_buffer_size (w : World) (ifname : List Char) :
    sizeof_i40e_nvm_access = 20 ∧
    (∀ x ∈ (show_info w ifname false Proc.init).calls,
      x.req.ifd_len = sizeof_i40e_nvm_access + 26 ∧
      (x.req.ifd_data.data_size = 2 ∨ x.req.ifd_data.data_size = 26)) ∧
    (∀ x ∈ (update_nvm w ifname Proc.init).calls.take 2,
      x.req.ifd_len = sizeof_i40e_nvm_access + 26 ∧ x.req.ifd_data.data_size = 2) ∧
    (∀ x ∈ (update_nvm w ifname Proc.init).calls.drop 2,
      x.req.ifd_len = sizeof_i40e_nvm_access + 2 ∧ x.req.ifd_data.data_size = 2) := by
  refine ⟨rfl, ?_, ?_, ?_⟩
  · intro x hx
    obtain ⟨_, _, _, h4, h5⟩ := show_info_call_fields w ifname false x hx
    exact ⟨h4, h5⟩
  · intro x hx
    rcases update_nvm_calls w ifname with
      ⟨hlen, hcalls, _, _⟩ | ⟨d1, d2, off, p0, tail, _, _, _, _, _, _, hcalls, _, _⟩
    · rw [List.take_of_length_le hlen, hcalls] at hx
      rcases show_info_calls_cases w ifname true with
        h | ⟨r1, h⟩ | ⟨d1, r2, _, h⟩ | ⟨d1, d2, r3, hf, _, _⟩
      · rw [h] at hx; simp at hx
      · rw [h] at hx
        simp only [List.mem_singleton] at hx
        rw [hx]; exact ⟨rfl, rfl⟩
      · rw [h] at hx
        simp only [List.mem_cons, List.mem_singleton, List.not_mem_nil, or_false] at hx
        rcases hx with hx | hx <;> rw [hx] <;> exact ⟨rfl, rfl⟩
      · cases hf
    · rw [hcalls] at hx
      simp only [List.take_succ_cons, List.take_zero, List.mem_cons, List.mem_singleton,
        List.not_mem_nil, or_false] at hx
      rcases hx with hx | hx <;> rw [hx] <;> exact ⟨rfl, rfl⟩
  · intro x hx
    rcases update_nvm_calls w ifname with
      ⟨hlen, _, _, _⟩ | ⟨d1, d2, off, p0, tail, _, _, _, hoff, _, _, hcalls, _, htail⟩
    · rw [List.drop_eq_nil_of_le hlen] at hx; simp at hx
    · have ho : off < 2 ^ 16 := by rw [hoff]; exact Nat.mod_lt _ (by norm_num)
      rw [hcalls] at hx
      simp only [List.drop_succ_cons, List.drop_zero] at hx
      rcases List.mem_append.mp hx with hx | hx
      · obtain ⟨j, _, hlc⟩ := loop_seg_shape w ifname off ho (List.range 4) range4_lt _ _ x hx
        exact ⟨hlc.2.2.2.1, hlc.2.2.1⟩
      · rcases htail with ⟨h, _⟩ | ⟨h, _⟩ | ⟨l1, p1, r, h, _⟩
        · rw [h] at hx; simp at hx
        · rw [h] at hx; simp at hx
        · rw [h] at hx
          simp only [List.mem_singleton] at hx
          rw [hx]; exact ⟨rfl, rfl⟩

theorem show_info_exit_status (w : World) (ifname : List Char) (offp : Bool) (site : Site)
    (code : Nat) (p : Proc) (h : show_info w ifname offp Proc.init = .exit site code p) :
    code = site.status ∧ site.in_show_info = true := by
  revert h
  unfold show_info
  simp only [Proc.init, Proc.call, Proc.print]
  repeat' split
  all_goals
    intro h
    cases h <;> exact ⟨rfl, rfl⟩

theorem update_nvm_exit_status (w : World) (ifname : List Char) (site : Site)
    (code : Nat) (p : Proc) (h : update_nvm w ifname Proc.init = .exit site code p) :
    code = site.status ∧ site ≠ .usage := by
  rcases update_nvm_cases w ifname with
    ⟨site1, code1, p1, hR, _, _, hsite, _⟩ | ⟨d1, d2, off, p0, _, _, _, _, _, _, hrest⟩
  · rw [h] at hR
    injection hR with h1 h2 _
    subst h1 h2
    rcases hsite with ⟨h1, h2⟩ | ⟨h1, h2⟩ | ⟨h1, h2⟩ | ⟨h1, h2⟩ | ⟨h1, h2⟩ | ⟨h1, h2⟩ | ⟨h1, h2⟩ <;>
      subst h1 h2 <;> exact ⟨rfl, by decide⟩
  · rcases hrest with ⟨site1, code1, p1, hL, hR⟩ | ⟨l1, p1, _, _, hR⟩ | ⟨l1, p1, r, _, _, _, hr⟩
    · rw [h] at hR
      injection hR with h1 h2 _
      subst h1 h2
      obtain ⟨_, _, _, _, _, hsite⟩ :=
        loop_exit_facts w ifname off (List.range 4) ⟨0, [0]⟩ p0 site code p1 hL
      rcases hsite with ⟨h1, h2, _⟩ | ⟨h1, h2, _⟩ <;> subst h1 h2 <;> exact ⟨rfl, by decide⟩
    · rw [h] at hR; cases hR
    · rcases hr with ⟨_, p2, hR⟩ | ⟨_, p2, hR⟩
      · rw [h] at hR
        injection hR with h1 h2 _
        subst h1 h2
        exact ⟨rfl, by decide⟩
      · rw [h] at hR; cases hR

/-- C8, as stated, fails: in dump mode a failed allocation and the 4KiB-unit pointer check
are two different failure sites that both end with status 1; in patch mode the failed read
of the EMP SR pointer and a failed lane write both end with status 3. -/
theorem exit_status_not_injective :
    (∃ p, main alloc_failing [] ['g'] [['i', 'x', 'l', '0']] = .exit .show_calloc 1 p) ∧
    (∃ p, main (scripted 3 [some [0x8005]]) [] ['g'] [['i', 'x', 'l', '0']]
      = .exit .show_4k 1 p) ∧
    Site.show_calloc ≠ Site.show_4k ∧
    (∃ p, main (scripted 3 [none]) [] ['u'] [['i', 'x', 'l', '0']]
      = .exit .show_ioctl_emp 3 p) ∧
    (∃ p, main (scripted 3 [some [0x0010], some [0x0005], some [0x0800], none]) [] ['u']
      [['i', 'x', 'l', '0']] = .exit .upd_ioctl_write 3 p) ∧
    Site.show_ioctl_emp ≠ Site.upd_ioctl_write :=
  ⟨⟨_, rfl⟩, ⟨_, rfl⟩, by decide, ⟨_, rfl⟩, ⟨_, rfl⟩, by decide⟩

/-- C8, amended: every failure site ends the program with the nonzero status written at
that site, between 1 and 5. The statuses are pairwise distinct among the sites of one
function that follow a failed `socket` or `ioctl` call (2, 3, 4, 5 in `show_info`; 2, 3, 4
in `update_nvm`); every other failure site (either allocation, the 4KiB-unit pointer check,
`show_info failed`, the missing argument) ends with status 1. -/
theorem exit_status_by_site (w : World) (name opts : List Char) (args : List (List Char))
    (site : Site) (code : Nat) (p : Proc)
    (h : main w name opts args = .exit site code p) :
    code = site.status ∧
    (site ≠ .usage → code ≠ 0 ∧ 1 ≤ code ∧ code ≤ 5) ∧
    (∀ s1 s2 : Site, s1.transport = true → s2.transport = true →
      s1.in_show_info = s2.in_show_info → s1.status = s2.status → s1 = s2) ∧
    (∀ s : Site, s ≠ .usage → s.transport = false → s.status = 1) := by
  have hcode : code = site.status := by
    unfold main usage at h
    simp only at h
    split at h
    · cases h; rfl
    · split at h
      · cases h; rfl
      · split at h
        · cases h; rfl
        · split at h
          · split at h
            · rename_i hsh
              cases h
              exact (show_info_exit_status w _ false _ _ _ hsh).1
            · cases h
          · split at h
            · rename_i hup
              cases h
              exact (update_nvm_exit_status w _ _ _ _ hup).1
            · cases h
  refine ⟨hcode, ?_, by intro s1 s2; cases s1 <;> cases s2 <;> decide,
    by intro s; cases s <;> decide⟩
  intro hne
  rw [hcode]
  cases site <;> first | exact absurd rfl hne | decide

/-- C8 (amended) at a concrete run: the pointer word `0x8005` ends patch mode at the
4KiB-unit check, with the status written there. -/
theorem exit_status_by_site_witness :
    (∃ p, main (scripted 3 [some [0x8005]]) [] ['u'] [['i', 'x', 'l', '0']]
      = .exit .show_4k 1 p) ∧
    (1 : Nat) = Site.show_4k.status ∧ (1 : Nat) ≠ 0 :=
  ⟨⟨_, rfl⟩,
   (exit_status_by_site (scripted 3 [some [0x8005]]) [] ['u'] [['i', 'x', 'l', '0']]
      .show_4k 1 _ rfl).1,
   ((exit_status_by_site (scripted 3 [some [0x8005]]) [] ['u'] [['i', 'x', 'l', '0']]
      .show_4k 1 _ rfl).2.1 (by decide)).1⟩

/-- In a list whose elements before the last all satisfy `P`, an element that does not
satisfy `P` is the last one. -/
theorem eq_last_of_not {α : Type} (P : α → Prop) (L pre post : List α) (a b : α)
    (h : pre ++ b :: post = L ++ [a]) (hL : ∀ y ∈ L, P y) (hb : ¬ P b) :
    post = [] ∧ b = a ∧ pre = L := by
  rcases List.eq_nil_or_concat post with hp | ⟨post1, z, hp⟩
  · subst hp
    have h2 : pre ++ [b] = L ++ [a] := h
    obtain ⟨h3, h4⟩ := List.append_inj' h2 rfl
    exact ⟨rfl, by simpa using h4, h3⟩
  · exfalso
    subst hp
    have h2 : (pre ++ b :: post1) ++ [z] = L ++ [a] := by
      rw [← h]; simp
    obtain ⟨h3, _⟩ := List.append_inj' h2 rfl
    exact hb (hL b (by rw [← h3]; simp))

theorem clear_bit11_and (v : Nat) : (v &&& 0xF7FF) &&& (1 <<< 11) = 0 := by
  rw [Nat.and_assoc]
  have : (0xF7FF &&& (1 <<< 11) : Nat) = 0 := by decide
  rw [this]
  exact Nat.and_zero v

/-- Every write of the lane loop carries a value with bit 11 clear. -/
theorem loop_seg_write_payload (w : World) (ifname : List Char) (offset : Nat)
    (lanes : List Nat) :
    ∀ (l : Loop) (p : Proc), ∀ y ∈ loop_seg w ifname offset lanes l p,
      y.verb = .SIOCSDRVSPEC → word0 y.req.ifd_data.data &&& (1 <<< 11) = 0 := by
  induction lanes with
  | nil => intro l p y hy; simp [loop_seg_nil] at hy
  | cons i rest ih =>
    intro l p y hy hv
    have hw : ∀ d r, word0 (lane_write_call ifname offset i d r).req.ifd_data.data
        &&& (1 <<< 11) = 0 := by
      intro d r
      rw [lane_write_call_payload]
      exact clear_bit11_and _
    rcases loop_cons_cases w ifname offset i rest l p with
      ⟨p1, _, hsg⟩ | ⟨d, p1, _, _, hsg⟩ | ⟨d, p1, _, _, hsg⟩ | ⟨d, d1, p1, _, _, hsg⟩
    · rw [hsg] at hy
      simp only [List.mem_singleton] at hy
      rw [hy] at hv; simp at hv
    · rw [hsg] at hy
      rcases List.mem_cons.mp hy with hy | hy
      · rw [hy] at hv; simp at hv
      · exact ih _ _ y hy hv
    · rw [hsg] at hy
      simp only [List.mem_cons, List.mem_singleton, List.not_mem_nil, or_false] at hy
      rcases hy with hy | hy
      · rw [hy] at hv; simp at hv
      · rw [hy]; exact hw _ _
    · rw [hsg] at hy
      rcases List.mem_cons.mp hy with hy | hy
      · rw [hy] at hv; simp at hv
      · rcases List.mem_cons.mp hy with hy | hy
        · rw [hy]; exact hw _ _
        · exact ih _ _ y hy hv

/-- The lane loop writes at most once to any offset. -/
theorem loop_seg_write_count (w : World) (ifname : List Char) (offset : Nat)
    (ho : offset < 2 ^ 16) (lanes : List Nat) (hl : ∀ j ∈ lanes, j < 4)
    (hs : lanes.Pairwise (· < ·)) (o : Nat) :
    ∀ (l : Loop) (p : Proc),
      ((loop_seg w ifname offset lanes l p).filter
        (fun c => decide (c.verb = .SIOCSDRVSPEC ∧ c.offset = o))).length ≤ 1 := by
  induction lanes with
  | nil => intro l p; simp [loop_seg_nil]
  | cons i rest ih =>
    intro l p
    have hi : i < 4 := hl i (List.mem_cons_self _ _)
    have hl1 : ∀ j ∈ rest, j < 4 := fun j hj => hl j (List.mem_cons_of_mem _ hj)
    have hlt : ∀ j ∈ rest, i < j := (List.pairwise_cons.mp hs).1
    have ih1 := ih hl1 (List.pairwise_cons.mp hs).2
    have hwo := fun d r => lane_write_call_offset ifname offset i d r ho hi
    rcases loop_cons_cases w ifname offset i rest l p with
      ⟨p1, _, hsg⟩ | ⟨d, p1, _, _, hsg⟩ | ⟨d, p1, _, _, hsg⟩ | ⟨d, d1, p1, _, _, hsg⟩
    · rw [hsg, List.filter_cons_of_neg (by simp)]; simp
    · rw [hsg, List.filter_cons_of_neg (by simp)]; exact ih1 _ _
    · rw [hsg, List.filter_cons_of_neg (by simp)]
      exact le_trans (List.length_filter_le _ _) (by simp)
    · rw [hsg, List.filter_cons_of_neg (by simp)]
      by_cases hoi : o = lane_offset offset i
      · have hnone : (loop_seg w ifname offset rest ⟨l.c + 1, d1⟩ p1).filter
            (fun c => decide (c.verb = .SIOCSDRVSPEC ∧ c.offset = o)) = [] := by
          rw [List.filter_eq_nil_iff]
          intro y hy
          have := loop_seg_offset_gt w ifname offset ho i rest hl1 hlt _ _ y hy
          simp only [decide_eq_true_eq, not_and]
          intro _
          omega
        rw [List.filter_cons_of_pos (by simp [hwo, hoi]), hnone]
        simp
      · rw [List.filter_cons_of_neg (by simp [hwo]; exact fun h => hoi h.symm)]
        exact ih1 _ _

/-- C10: in a run of `update_nvm`, when the read or the write of lane `k` fails (a call
after the resolver's two, addressed to lane `k`, returns -1), that call is the last of the
run and the program exits with the status of that site (2 for the read, 3 for the write).
Hence no lane after `k` is read or written and no checksum request is issued. Every call
before it succeeded and stays in the list of calls made: each lane was written at most
once, and every write carried a value with bit 11 clear, so none restores an old value. -/
theorem update_nvm_aborts_on_lane_failure (w : World) (ifname : List Char)
    (pre post : List Call) (x : Call) (k : Nat)
    (hcalls : (update_nvm w ifname Proc.init).calls = pre ++ x :: post)
    (hpre : 2 ≤ pre.length)
    (hlane : is_lane_call (resolved_offset (update_nvm w ifname Proc.init).calls) k x)
    (hfail : x.resp = none) :
    post = [] ∧
    (∃ site code p, update_nvm w ifname Proc.init = .exit site code p ∧ code ≠ 0 ∧
      ((x.verb = .SIOCGDRVSPEC ∧ site = .upd_ioctl_read ∧ code = 2) ∨
       (x.verb = .SIOCSDRVSPEC ∧ site = .upd_ioctl_write ∧ code = 3))) ∧
    (∀ y ∈ (update_nvm w ifname Proc.init).calls, is_csum y = false) ∧
    (∀ j, k < j → ∀ y ∈ (update_nvm w ifname Proc.init).calls.drop 2,
      y.offset ≠ lane_offset (resolved_offset (update_nvm w ifname Proc.init).calls) j) ∧
    (∀ y ∈ pre, y.resp ≠ none) ∧
    (∀ y ∈ (update_nvm w ifname Proc.init).calls, y.verb = .SIOCSDRVSPEC →
      word0 y.req.ifd_data.data &&& (1 <<< 11) = 0) ∧
    (∀ j, ((update_nvm w ifname Proc.init).calls.filter (fun c => decide (c.verb = .SIOCSDRVSPEC ∧
      c.offset = lane_offset (resolved_offset (update_nvm w ifname Proc.init).calls) j))).length
        ≤ 1) := by
  rcases update_nvm_calls w ifname with
    ⟨hlen, _, _, _⟩ | ⟨d1, d2, off, p0, tail, _, _, _, hoff, _, _, hc, hres, htail⟩
  · exfalso
    rw [hcalls] at hlen
    simp at hlen
    omega
  · have ho : off < 2 ^ 16 := by rw [hoff]; exact Nat.mod_lt _ (by norm_num)
    rw [hres] at hlane ⊢
    -- the calls after the resolver's two
    have hdrop : loop_seg w ifname off (List.range 4) ⟨0, [0]⟩ p0 ++ tail
        = pre.drop 2 ++ x :: post := by
      have h1 : ((update_nvm w ifname Proc.init).calls).drop 2
          = loop_seg w ifname off (List.range 4) ⟨0, [0]⟩ p0 ++ tail := by
        rw [hc]; rfl
      rw [← h1, hcalls, List.drop_append_of_le_length hpre]
    have hxm : x ∈ loop_seg w ifname off (List.range 4) ⟨0, [0]⟩ p0 ++ tail := by
      rw [hdrop]; simp
    have hxcs : is_csum x = false := lane_call_not_csum off k x hlane
    rcases htail with ⟨ht, site, code, p1, hL, hR⟩ | ⟨ht, l1, p1, hL, _, _⟩ |
      ⟨l1, p1, r, ht, hL, _, _⟩
    · -- the loop exited: its last call is the failed one
      obtain ⟨spre, x1, hs2, hx1, hspre, hsite⟩ :=
        loop_exit_facts w ifname off (List.range 4) ⟨0, [0]⟩ p0 site code p1 hL
      rw [ht, List.append_nil, hs2] at hdrop
      obtain ⟨hpost, hxx, hpd⟩ := eq_last_of_not (fun y : Call => ∃ d, y.resp = some d)
        spre (pre.drop 2) post x1 x hdrop.symm hspre
        (fun ⟨d, hd⟩ => by rw [hfail] at hd; cases hd)
      subst hxx
      have hsorted := loop_seg_sorted w ifname off ho (List.range 4) range4_lt range4_sorted
        ⟨0, [0]⟩ p0
      rw [hs2] at hsorted
      have hle : ∀ y ∈ spre ++ [x], y.offset ≤ x.offset := by
        intro y hy
        rcases List.mem_append.mp hy with hy | hy
        · exact (List.pairwise_append.mp hsorted).2.2 y hy x (by simp)
        · simp only [List.mem_singleton] at hy
          rw [hy]
      have hcalls2 : (update_nvm w ifname Proc.init).calls
          = (⟨.SIOCGDRVSPEC, emp_sr_req ifname, some d1⟩ : Call)
            :: (⟨.SIOCGDRVSPEC, ptr_req ifname d1, some d2⟩ : Call) :: (spre ++ [x]) := by
        rw [hc, ht, List.append_nil, hs2]
      have hseg : ∀ y ∈ spre ++ [x],
          y ∈ loop_seg w ifname off (List.range 4) ⟨0, [0]⟩ p0 := by
        intro y hy; rw [hs2]; exact hy
      refine ⟨hpost, ⟨site, code, p1, hR, ?_, ?_⟩, ?_, ?_, ?_, ?_, ?_⟩
      · rcases hsite with ⟨_, h2, _⟩ | ⟨_, h2, _⟩ <;> rw [h2] <;> decide
      · rcases hsite with ⟨h1, h2, h3⟩ | ⟨h1, h2, h3⟩
        · exact Or.inl ⟨h3, h1, h2⟩
        · exact Or.inr ⟨h3, h1, h2⟩
      · intro y hy
        rw [hcalls2] at hy
        rcases List.mem_cons.mp hy with hy | hy
        · rw [hy]; rfl
        · rcases List.mem_cons.mp hy with hy | hy
          · rw [hy]; rfl
          · obtain ⟨j, _, hlc⟩ :=
              loop_seg_shape w ifname off ho (List.range 4) range4_lt _ _ y (hseg y hy)
            exact lane_call_not_csum off j y hlc
      · intro j hj y hy
        rw [hcalls2] at hy
        simp only [List.drop_succ_cons, List.drop_zero] at hy
        have h1 := hle y hy
        have h2 : x.offset = lane_offset off k := hlane.1
        unfold lane_offset at h2 ⊢
        omega
      · intro y hy
        have hpre2 : pre = pre.take 2 ++ pre.drop 2 := (List.take_append_drop 2 pre).symm
        rw [hpre2] at hy
        rcases List.mem_append.mp hy with hy | hy
        · have htk : pre.take 2 = [(⟨.SIOCGDRVSPEC, emp_sr_req ifname, some d1⟩ : Call),
              (⟨.SIOCGDRVSPEC, ptr_req ifname d1, some d2⟩ : Call)] := by
            have h3 : ((update_nvm w ifname Proc.init).calls).take 2 = pre.take 2 := by
              rw [hcalls, List.take_append_of_le_length hpre]
            rw [← h3, hcalls2]; rfl
          rw [htk] at hy
          simp only [List.mem_cons, List.mem_singleton, List.not_mem_nil, or_false] at hy
          rcases hy with hy | hy <;> rw [hy] <;> simp
        · rw [hpd] at hy
          obtain ⟨d, hd⟩ := hspre y hy
          rw [hd]; simp
      · intro y hy hv
        rw [hcalls2] at hy
        rcases List.mem_cons.mp hy with hy | hy
        · rw [hy] at hv; cases hv
        · rcases List.mem_cons.mp hy with hy | hy
          · rw [hy] at hv; cases hv
          · exact loop_seg_write_payload w ifname off (List.range 4) _ _ y (hseg y hy) hv
      · intro j
        rw [hcalls2, List.filter_cons_of_neg (by simp), List.filter_cons_of_neg (by simp),
          ← hs2]
        exact loop_seg_write_count w ifname off ho (List.range 4) range4_lt range4_sorted _ _ _
    · -- the loop returned: every call of it succeeded, and the failed one is none of them
      exfalso
      rw [ht, List.append_nil] at hxm
      obtain ⟨d, hd⟩ :=
        (loop_ret_facts w ifname off (List.range 4) ⟨0, [0]⟩ p0 l1 p1 hL).1 x hxm
      rw [hfail] at hd; cases hd
    · exfalso
      rcases List.mem_append.mp hxm with hxm | hxm
      · obtain ⟨d, hd⟩ :=
          (loop_ret_facts w ifname off (List.range 4) ⟨0, [0]⟩ p0 l1 p1 hL).1 x hxm
        rw [hfail] at hd; cases hd
      · rw [ht] at hxm
        simp only [List.mem_singleton] at hxm
        rw [hxm, csum_call_is_csum] at hxcs
        cases hxcs

/-- C10 at a concrete run: lane 0 reads `0x0800` and is written back, then the read of
lane 1 fails. The run ends there with status 2; the write of lane 0 stays made, and no
checksum request follows. -/
theorem update_nvm_aborts_on_lane_failure_witness :
    (∃ p, update_nvm (scripted 3 [some [0x0010], some [0x0005], some [0x0800], some [0x0000],
        none, some [0x0800], some [0]]) ['i', 'x', 'l', '0'] Proc.init
      = .exit .upd_ioctl_read 2 p) ∧
    lane_write_call ['i', 'x', 'l', '0'] 0x2E 0 [0x0800] (some [0x0000]) ∈
      (update_nvm (scripted 3 [some [0x0010], some [0x0005], some [0x0800], some [0x0000],
        none, some [0x0800], some [0]]) ['i', 'x', 'l', '0'] Proc.init).calls ∧
    (∀ y ∈ (update_nvm (scripted 3 [some [0x0010], some [0x0005], some [0x0800],
        some [0x0000], none, some [0x0800], some [0]]) ['i', 'x', 'l', '0'] Proc.init).calls,
      is_csum y = false) ∧
    (∀ j, 1 < j → ∀ y ∈ (update_nvm (scripted 3 [some [0x0010], some [0x0005], some [0x0800],
        some [0x0000], none, some [0x0800], some [0]]) ['i', 'x', 'l', '0']
          Proc.init).calls.drop 2,
      y.offset ≠ lane_offset (resolved_offset (update_nvm (scripted 3 [some [0x0010],
        some [0x0005], some [0x0800], some [0x0000], none, some [0x0800], some [0]])
          ['i', 'x', 'l', '0'] Proc.init).calls) j) := by
  have h := update_nvm_aborts_on_lane_failure (scripted 3 [some [0x0010], some [0x0005],
      some [0x0800], some [0x0000], none, some [0x0800], some [0]]) ['i', 'x', 'l', '0']
    [⟨.SIOCGDRVSPEC, emp_sr_req ['i', 'x', 'l', '0'], some [0x0010]⟩,
     ⟨.SIOCGDRVSPEC, ptr_req ['i', 'x', 'l', '0'] [0x0010], some [0x0005]⟩,
     lane_read_call ['i', 'x', 'l', '0'] 0x2E 0 [0] (some [0x0800]),
     lane_write_call ['i', 'x', 'l', '0'] 0x2E 0 [0x0800] (some [0x0000])]
    []
    (lane_read_call ['i', 'x', 'l', '0'] 0x2E 1 [0x0000] none) 1
    (by decide) (by decide) ⟨rfl, rfl, rfl, rfl, Or.inl ⟨rfl, rfl⟩⟩ rfl
  exact ⟨⟨_, rfl⟩, by decide, h.2.2.1, h.2.2.2.1⟩

end IxlUnlock
